import Mathlib

/-!
Verification development for the fuel-stop planning engine of the
Fuel-Route-Optimizer repository (`routes/services/fuel_optimizer.py`).

Shallow embedding conventions:
* Python floats are modelled as exact rationals (`ℚ`); `round(x, 2)` is
  modelled as exact rounding of `100 * x` to the nearest integer.
* The external great-circle distance function (`geopy.distance.geodesic`)
  is an opaque parameter `gd : Point → Point → ℚ`; theorems that need it
  assume only that it is nonnegative, which `geodesic(..).miles` guarantees.
* The region-coordinate table `US_STATE_COORDS` (module
  `routes/services/us_state_coords.py`, a fixed dict from state name to a
  `(lat, lon)` pair) is a parameter `coords : List (String × Point)`.
* Python exceptions become `Except` values; the out-of-range list access
  `route_points[0]` on an empty list becomes `PlanErr.indexError`.
* The `while` loop of `find_optimal_fuel_stops` is run by a fuel-indexed
  iterator `runLoop`; `runLoop` returns `none` when the given number of
  iterations did not finish the trip, so termination of the Python loop
  within `n` iterations is `runLoop n … ≠ none`.
* `LoopState.events` and `PlanResult.events` are a ghost trace recording,
  for each appended fuel stop, the exact (unrounded) rationals the code
  computes before `round(…, 2)` is applied to the emitted dictionary.
-/

namespace FuelOpt

/-- A `(latitude, longitude)` pair. -/
abbrev Point := ℚ × ℚ

/-- One parsed row of the fuel price CSV, as produced by
`_load_raw_stations_data` (fields already `.strip()`ped, price parsed). -/
structure RawStation where
  name : String
  city : String
  state : String
  address : String
  price : ℚ
  deriving DecidableEq

/-- A station as stored in `self.fuel_stations` by `_get_stations_near_route`:
position is the state centroid, state is upper-cased and stripped. -/
structure Station where
  name : String
  latitude : ℚ
  longitude : ℚ
  price : ℚ
  city : String
  state : String
  deriving DecidableEq

/-- One raw CSV row before parsing.  A `none` field models a missing column
(`KeyError` in Python); `retailPrice = none` also models a `Retail Price`
cell on which `float(..)` raises.  `address` is read with
`row.get('Address', '')`, so a missing address is not an error. -/
structure RawRow where
  truckstopName : Option String
  city : Option String
  state : Option String
  address : Option String
  retailPrice : Option ℚ
  deriving DecidableEq

/-- The single error raised by `_load_raw_stations_data`
(`Exception("Error loading fuel prices: …")`). -/
inductive DataErr where
  | dataSourceError
  deriving DecidableEq

/-- The uncaught Python `IndexError` raised by `route_points[0]` (or any
other out-of-range list access) inside `find_optimal_fuel_stops`. -/
inductive PlanErr where
  | indexError
  deriving DecidableEq

/-- One emitted fuel-stop dictionary of `find_optimal_fuel_stops`. -/
structure FuelStop where
  station_name : String
  loc_lat : ℚ
  loc_lon : ℚ
  loc_city : String
  loc_state : String
  price_per_gallon : ℚ
  gallons_purchased : ℚ
  cost : ℚ
  distance_from_start : ℚ
  note : Option String
  deriving DecidableEq

/-- Ghost record of the exact (unrounded) values computed at one refuel
event: `covered` is `distance_covered` at the stop, `remaining_before` is
`remaining_range` after the advance and before the tank reset, `gallons`
and `price` are the unrounded `gallons_needed` and price used. -/
structure Event where
  covered : ℚ
  remaining_before : ℚ
  gallons : ℚ
  price : ℚ
  estimated : Bool
  deriving DecidableEq

/-- The mutable state of the planning loop of `find_optimal_fuel_stops`
(lines 114-123): `fuel_stops`, `total_fuel_cost`, `remaining_range`,
`distance_covered`, `route_index`, plus the ghost `events` trace.
(The variable `current_position` of line 118 is written once and never
read, so it is not part of the state.) -/
structure LoopState where
  fuel_stops : List FuelStop
  total_fuel_cost : ℚ
  remaining_range : ℚ
  distance_covered : ℚ
  route_index : ℕ
  events : List Event
  deriving DecidableEq

/-- The dictionary returned by `find_optimal_fuel_stops` (lines 202-209),
plus the ghost `events` trace. -/
structure PlanResult where
  fuel_stops : List FuelStop
  total_fuel_cost : ℚ
  total_gallons : ℚ
  number_of_stops : ℕ
  vehicle_mpg : ℚ
  vehicle_range : ℚ
  events : List Event
  deriving DecidableEq

instance {ε α : Type} [DecidableEq ε] [DecidableEq α] : DecidableEq (Except ε α) :=
  fun x y =>
    match x, y with
    | Except.ok a, Except.ok b =>
      if h : a = b then Decidable.isTrue (by rw [h]) else Decidable.isFalse (by simp [h])
    | Except.error a, Except.error b =>
      if h : a = b then Decidable.isTrue (by rw [h]) else Decidable.isFalse (by simp [h])
    | Except.ok _, Except.error _ => Decidable.isFalse (by simp)
    | Except.error _, Except.ok _ => Decidable.isFalse (by simp)

/-- `self.max_range_miles = 500`. -/
def max_range_miles : ℚ := 500

/-- `self.mpg = 10`. -/
def mpg : ℚ := 10

/-- Python `round(x, 2)`, idealized to exact rational rounding of `100 * x`
to the nearest integer (Python rounds the nearest binary double instead;
no claim depends on the tie-breaking rule). -/
def round2 (x : ℚ) : ℚ := (round (100 * x) : ℤ) / 100

/-- Python `str.upper()` (on the character list of the string). -/
def pyUpper (s : String) : String := ⟨s.data.map Char.toUpper⟩

/-- Python `str.strip()`: drop leading and trailing whitespace. -/
def pyStrip (s : String) : String :=
  ⟨((s.data.dropWhile Char.isWhitespace).reverse.dropWhile Char.isWhitespace).reverse⟩

/-! ### `_load_raw_stations_data` (lines 24-47)

The CSV file itself is modelled as `Option (List RawRow)`: `none` is a
missing/unreadable file.  Any exception while reading rows (missing
required column, unparseable price) aborts the whole load.  The lazy
`self.raw_stations_data` cache only memoizes the result of this pure
computation, so it is not modelled. -/

/-- Parse one CSV row (lines 34-40); `none` is the Python exception. -/
def parseRow (r : RawRow) : Option RawStation :=
  match r.truckstopName, r.city, r.state, r.retailPrice with
  | some n, some c, some s, some p =>
      some { name := pyStrip n, city := pyStrip c, state := pyStrip s,
             address := pyStrip (r.address.getD ("")), price := p }
  | _, _, _, _ => none

/-- Parse all rows in order; any row failure aborts the whole parse, as the
uncaught exception does in the Python loop. -/
def parseRows : List RawRow → Option (List RawStation)
  | [] => some []
  | r :: rest =>
    match parseRow r, parseRows rest with
    | some st, some sts => some (st :: sts)
    | _, _ => none

/-- `_load_raw_stations_data`. -/
def loadRawStationsData (file : Option (List RawRow)) :
    Except DataErr (List RawStation) :=
  match file with
  | none => Except.error DataErr.dataSourceError
  | some rows =>
    match parseRows rows with
    | none => Except.error DataErr.dataSourceError
    | some stations => Except.ok stations

/-! ### `_get_stations_near_route` (lines 49-94) -/

/-- Python slicing `l[::step]` for a positive step. -/
def sliceStep (l : List Point) (k : ℕ) : List Point :=
  (l.enum.filter (fun pr => pr.1 % k == 0)).map Prod.snd

/-- Lines 56-60: sample the route points, forcing the final point in. -/
def routeSample (route_points : List Point) : List Point :=
  let step := max 1 (route_points.length / 15)
  let base := sliceStep route_points step
  match route_points.getLast? with
  | none => base
  | some lastp => if base.getLast? ≠ some lastp then base ++ [lastp] else base

/-- Dict lookup in the `US_STATE_COORDS` table. -/
def lookupCoord (k : String) : List (String × Point) → Option Point
  | [] => none
  | (k2, v) :: rest => if k2 = k then some v else lookupCoord k rest

/-- Lines 64-69: names of states whose centroid is within 250 miles of some
sampled route point.  (The Python `set` is modelled as a list used only
through membership.) -/
def statesNearRoute (gd : Point → Point → ℚ) (coords : List (String × Point))
    (route_points : List Point) : List String :=
  (coords.filter
    (fun sc => (routeSample route_points).any (fun rp => decide (gd sc.2 rp ≤ 250)))).map
    Prod.fst

/-- The dedup key `(name, city, state)` of lines 75-80: `city` stripped,
`state` upper-cased then stripped. -/
abbrev Key := String × String × String

/-- The key under which a raw record is deduplicated. -/
def rawKey (r : RawStation) : Key := (r.name, pyStrip r.city, pyStrip (pyUpper r.state))

/-- The key a catalog `Station` answers to (its `state` field is already
normalized). -/
def entryKey (st : Station) : Key := (st.name, pyStrip st.city, st.state)

/-- The station entry built at lines 81-88 for a record in state `st`
whose centroid is `c`. -/
def stationEntry (r : RawStation) (st : String) (c : Point) : Station :=
  { name := r.name, latitude := c.1, longitude := c.2,
    price := r.price, city := r.city, state := st }

/-- Python-dict insert of lines 89-90: a new key is appended, an existing
key keeps its position and keeps the lower price. -/
def dedupInsert : List (Key × Station) → Key → Station → List (Key × Station)
  | [], k, e => [(k, e)]
  | (k2, e2) :: rest, k, e =>
    if k = k2 then (if e.price < e2.price then (k, e) else (k2, e2)) :: rest
    else (k2, e2) :: dedupInsert rest k e

/-- Lines 75-80 for a single record: the `(key, entry)` pair kept, or
`none` when the record's state is filtered out (`continue`). -/
def keptEntry (coords : List (String × Point)) (near : List String)
    (r : RawStation) : Option (Key × Station) :=
  match lookupCoord (pyStrip (pyUpper r.state)) coords with
  | none => none
  | some c =>
    if pyStrip (pyUpper r.state) ∈ near then
      some (rawKey r, stationEntry r (pyStrip (pyUpper r.state)) c)
    else none

/-- The `by_key` dict built by the loop of lines 73-90. -/
def dedupFold (coords : List (String × Point)) (near : List String)
    (raws : List RawStation) : List (Key × Station) :=
  raws.foldl (fun acc r =>
    match keptEntry coords near r with
    | none => acc
    | some (k, e) => dedupInsert acc k e) []

/-- `_get_stations_near_route` (the unused `max_distance_miles=100`
parameter is omitted). -/
def getStationsNearRoute (gd : Point → Point → ℚ) (coords : List (String × Point))
    (raws : List RawStation) (route_points : List Point) : List Station :=
  (dedupFold coords (statesNearRoute gd coords route_points) raws).map Prod.snd

/-! ### `_advance_along_route` (lines 211-247) -/

/-- The interpolation of lines 237-238. -/
def lerp (p q : Point) (t : ℚ) : Point :=
  (p.1 + (q.1 - p.1) * t, p.2 + (q.2 - p.2) * t)

/-- The while loop of lines 227-247, as structural recursion on the list
of points after the cursor (the loop guard `current_index < len(points)-1`
holds exactly when that list is nonempty).  On exhaustion the code returns
`route_points[-1]`, which equals the running position here. -/
def advanceGo (gd : Point → Point → ℚ) (target : ℚ) :
    Point → ℕ → ℚ → List Point → Point × ℕ × ℚ
  | curPos, cur, traveled, [] => (curPos, cur, traveled)
  | curPos, cur, traveled, next :: rest =>
    if target ≤ traveled + gd curPos next then
      (lerp curPos next
        (if 0 < gd curPos next then (target - traveled) / gd curPos next else 0),
       cur, target)
    else
      advanceGo gd target next (cur + 1) (traveled + gd curPos next) rest

/-- `_advance_along_route`; `none` models the `IndexError` of the initial
`route_points[current_index]` read (line 225). -/
def advanceAlongRoute (gd : Point → Point → ℚ) (pts : List Point)
    (start : ℕ) (target : ℚ) : Option (Point × ℕ × ℚ) :=
  match pts[start]? with
  | none => none
  | some p => some (advanceGo gd target p start 0 (pts.drop (start + 1)))

/-- Length of the polyline chain `p :: rest` under `gd`. -/
def chainLen (gd : Point → Point → ℚ) : Point → List Point → ℚ
  | _, [] => 0
  | p, q :: rest => gd p q + chainLen gd q rest

/-- Polyline length remaining from index `i` (0 when `i` is out of range). -/
def suffixLen (gd : Point → Point → ℚ) (pts : List Point) (i : ℕ) : ℚ :=
  match pts.drop i with
  | [] => 0
  | p :: rest => chainLen gd p rest

/-- Total polyline length. -/
def polylineLength (gd : Point → Point → ℚ) (pts : List Point) : ℚ :=
  suffixLen gd pts 0

/-- The list of consecutive segment lengths. -/
def segList (gd : Point → Point → ℚ) (pts : List Point) : List ℚ :=
  List.zipWith gd pts pts.tail

/-- Polyline length of the first `i` segments. -/
def prefixLen (gd : Point → Point → ℚ) (pts : List Point) (i : ℕ) : ℚ :=
  ((segList gd pts).take i).sum

/-! ### `_find_nearby_stations` (lines 249-279) -/

/-- Stable insertion into a price-sorted list (equal prices keep their
original relative order, as Python's stable `sort` does). -/
def insertByPrice (x : Station) : List Station → List Station
  | [] => [x]
  | y :: ys => if y.price < x.price then y :: insertByPrice x ys else x :: y :: ys

/-- Stable sort ascending by price (line 278). -/
def sortByPrice : List Station → List Station
  | [] => []
  | x :: xs => insertByPrice x (sortByPrice xs)

/-- `_find_nearby_stations` (the unused `max_distance_miles=50` parameter
is omitted; the per-station `distance_from_route` annotation of lines
272-276 is never read afterwards and is not modelled). -/
def findNearbyStations (gd : Point → Point → ℚ) (coords : List (String × Point))
    (fuel_stations : List Station) (position : Point) : List Station :=
  let states_near_position :=
    (coords.filter (fun sc => decide (gd sc.2 position ≤ 250))).map Prod.fst
  sortByPrice (fuel_stations.filter (fun st => decide (st.state ∈ states_near_position)))

/-- Python `min(stations, key=lambda s: s['price'])` (line 147), returning
`none` on the empty list: the first station attaining the minimal price. -/
def pythonMinByPrice : List Station → Option Station
  | [] => none
  | x :: xs => some (xs.foldl (fun b s => if s.price < b.price then s else b) x)

/-- Lines 171-174: mean price of the route-level station list, or the 3.5
default when it is empty. -/
def avgPrice (l : List Station) : ℚ :=
  if l = [] then 3.5 else (l.map Station.price).sum / (l.length : ℚ)

/-! ### `find_optimal_fuel_stops` (lines 96-209) -/

/-- The state at line 114-123, before the first loop iteration. -/
def initState : LoopState :=
  { fuel_stops := [], total_fuel_cost := 0, remaining_range := max_range_miles,
    distance_covered := 0, route_index := 0, events := [] }

/-- One iteration of the while loop (lines 125-194). -/
def planStep (gd : Point → Point → ℚ) (coords : List (String × Point))
    (stations : List Station) (pts : List Point) (total : ℚ)
    (s : LoopState) : Except PlanErr LoopState :=
  let distance_to_next_fuel := min s.remaining_range (total - s.distance_covered)
  match advanceAlongRoute gd pts s.route_index distance_to_next_fuel with
  | none => Except.error PlanErr.indexError
  | some (target_position, new_route_index, segment_distance) =>
    let distance_covered := s.distance_covered + segment_distance
    let remaining_range := s.remaining_range - segment_distance
    if distance_covered < total ∧ remaining_range < 100 then
      match pythonMinByPrice (findNearbyStations gd coords stations target_position) with
      | some best_station =>
        let gallons_needed := (max_range_miles - remaining_range) / mpg
        let fuel_cost := gallons_needed * best_station.price
        Except.ok
          { fuel_stops := s.fuel_stops ++
              [{ station_name := best_station.name
                 loc_lat := best_station.latitude
                 loc_lon := best_station.longitude
                 loc_city := best_station.city
                 loc_state := best_station.state
                 price_per_gallon := best_station.price
                 gallons_purchased := round2 gallons_needed
                 cost := round2 fuel_cost
                 distance_from_start := round2 distance_covered
                 note := none }]
            total_fuel_cost := s.total_fuel_cost + fuel_cost
            remaining_range := max_range_miles
            distance_covered := distance_covered
            route_index := new_route_index
            events := s.events ++
              [{ covered := distance_covered, remaining_before := remaining_range,
                 gallons := gallons_needed, price := best_station.price,
                 estimated := false }] }
      | none =>
        let average_price := avgPrice stations
        let gallons_needed := (max_range_miles - remaining_range) / mpg
        let fuel_cost := gallons_needed * average_price
        Except.ok
          { fuel_stops := s.fuel_stops ++
              [{ station_name := ("Estimated Station")
                 loc_lat := target_position.1
                 loc_lon := target_position.2
                 loc_city := ("Unknown")
                 loc_state := ("Unknown")
                 price_per_gallon := round2 average_price
                 gallons_purchased := round2 gallons_needed
                 cost := round2 fuel_cost
                 distance_from_start := round2 distance_covered
                 note := some ("No stations found nearby, using estimated price") }]
            total_fuel_cost := s.total_fuel_cost + fuel_cost
            remaining_range := max_range_miles
            distance_covered := distance_covered
            route_index := new_route_index
            events := s.events ++
              [{ covered := distance_covered, remaining_before := remaining_range,
                 gallons := gallons_needed, price := average_price,
                 estimated := true }] }
    else
      Except.ok { s with distance_covered := distance_covered,
                         remaining_range := remaining_range,
                         route_index := new_route_index }

/-- Run the while loop for at most `n` iterations; `none` means the loop
was still running after `n` iterations. -/
def runLoop (gd : Point → Point → ℚ) (coords : List (String × Point))
    (stations : List Station) (pts : List Point) (total : ℚ) :
    ℕ → LoopState → Option (Except PlanErr LoopState)
  | 0, s => if total ≤ s.distance_covered then some (Except.ok s) else none
  | n + 1, s =>
    if total ≤ s.distance_covered then some (Except.ok s)
    else
      match planStep gd coords stations pts total s with
      | Except.error e => some (Except.error e)
      | Except.ok s2 => runLoop gd coords stations pts total n s2

/-- `find_optimal_fuel_stops`, parameterized over the already-loaded raw
station records (the CSV load itself is `loadRawStationsData`).  The match
on `route_points` models the `route_points[0]` access of line 118, which
raises `IndexError` on an empty polyline; it happens after the station
query of line 112, which succeeds on any input. -/
def findOptimalFuelStops (gd : Point → Point → ℚ) (coords : List (String × Point))
    (raws : List RawStation) (route_points : List Point)
    (total_distance_miles : ℚ) (n : ℕ) : Option (Except PlanErr PlanResult) :=
  let stations := getStationsNearRoute gd coords raws route_points
  match route_points with
  | [] => some (Except.error PlanErr.indexError)
  | _ :: _ =>
    match runLoop gd coords stations route_points total_distance_miles n initState with
    | none => none
    | some (Except.error e) => some (Except.error e)
    | some (Except.ok s) =>
      some (Except.ok
        { fuel_stops := s.fuel_stops
          total_fuel_cost := round2 s.total_fuel_cost
          total_gallons := round2 (total_distance_miles / mpg)
          number_of_stops := s.fuel_stops.length
          vehicle_mpg := mpg
          vehicle_range := max_range_miles
          events := s.events })

/-! ### Verification-only definitions (loop invariant, dedup specification) -/

/-- `distance_covered` at the most recent refuel event (0 before the first
one). -/
def lastCov (s : LoopState) : ℚ := (s.events.map Event.covered).getLastD 0

/-- Invariant of the planning loop: the tank level is within `[0, 500]`,
progress never exceeds the trip length, the distance driven since the last
refuel is exactly the fuel burnt (`tank`), consecutive refuel events are at
most a full tank apart, the emitted stops render the event trace, and every
event refuels from below the 100-mile buffer up to a full tank. -/
structure Inv (total : ℚ) (s : LoopState) : Prop where
  range_nonneg : 0 ≤ s.remaining_range
  range_le : s.remaining_range ≤ max_range_miles
  covered_le : s.distance_covered ≤ total
  tank : s.remaining_range + (s.distance_covered - lastCov s) = max_range_miles
  chain : List.Chain' (fun a b => b - a ≤ max_range_miles) (0 :: s.events.map Event.covered)
  lastcov_le : lastCov s ≤ s.distance_covered
  stops_events : s.fuel_stops.map FuelStop.distance_from_start
      = s.events.map (fun e => round2 e.covered)
  gallons_ok : ∀ e ∈ s.events, 0 ≤ e.remaining_before ∧ e.remaining_before < 100 ∧
      e.gallons = (max_range_miles - e.remaining_before) / mpg

/-- Specification-side lookup in the association list modelling `by_key`. -/
def lookupKey (k : Key) : List (Key × Station) → Option Station
  | [] => none
  | (k2, e) :: rest => if k2 = k then some e else lookupKey k rest

/-- The price-merge performed by lines 89-90 on a duplicate key. -/
def mergeSt : Option Station → Station → Station
  | none, e => e
  | some b, e => if e.price < b.price then e else b

/-- The station entries a run of the dedup loop produces for key `k`, in
processing order. -/
def groupEntries (coords : List (String × Point)) (near : List String) (k : Key)
    (rs : List RawStation) : List Station :=
  rs.filterMap (fun r =>
    match keptEntry coords near r with
    | none => none
    | some (k2, e) => if k2 = k then some e else none)

/-! ### Concrete instances used by witnesses and counterexamples -/

/-- A concrete nonnegative distance function standing in for the opaque
geodesic metric in closed witness computations. -/
def taxi (p q : Point) : ℚ := |p.1 - q.1| + |p.2 - q.2|

/-- A 1200-mile straight polyline. -/
def pts1200 : List Point := [(0, 0), (1200, 0)]

/-- The estimated stop emitted at mile `dd` of the 1200-mile run with no
stations loaded. -/
def estStop1200 (dd : ℚ) : FuelStop :=
  { station_name := ("Estimated Station"), loc_lat := 500, loc_lon := 0,
    loc_city := ("Unknown"), loc_state := ("Unknown"), price_per_gallon := 3.5,
    gallons_purchased := 50, cost := 175, distance_from_start := dd,
    note := some ("No stations found nearby, using estimated price") }

/-- The refuel event at mile `dd` of the 1200-mile run with no stations. -/
def estEvent1200 (dd : ℚ) : Event :=
  { covered := dd, remaining_before := 0, gallons := 50, price := 3.5, estimated := true }

/-- The loop state after the first iteration of the 1200-mile run with no
stations loaded. -/
def state1200 : LoopState :=
  { fuel_stops := [estStop1200 500], total_fuel_cost := 175, remaining_range := 500,
    distance_covered := 500, route_index := 0, events := [estEvent1200 500] }

/-- The full plan returned for the 1200-mile straight route with no
stations loaded. -/
def plan1200 : PlanResult :=
  { fuel_stops := [estStop1200 500, estStop1200 1000], total_fuel_cost := 350,
    total_gallons := 120, number_of_stops := 2, vehicle_mpg := 10, vehicle_range := 500,
    events := [estEvent1200 500, estEvent1200 1000] }

end FuelOpt

/-! ## Helper lemmas about the route traversal -/

namespace FuelOpt

theorem chainLen_nonneg {gd : Point → Point → ℚ} (hgd : ∀ a b, 0 ≤ gd a b) :
    ∀ (p : Point) (rest : List Point), 0 ≤ chainLen gd p rest
  | _, [] => le_refl 0
  | p, q :: rest => by
    have h1 := hgd p q
    have h2 := chainLen_nonneg hgd q rest
    simp only [chainLen]
    linarith

/-- The distance returned by the traversal loop is the target capped by the
remaining chain length. -/
theorem advanceGo_dist {gd : Point → Point → ℚ} (hgd : ∀ a b, 0 ≤ gd a b) (target : ℚ) :
    ∀ (rest : List Point) (curPos : Point) (cur : ℕ) (traveled : ℚ),
      traveled ≤ target →
      (advanceGo gd target curPos cur traveled rest).2.2 =
        min target (traveled + chainLen gd curPos rest) := by
  intro rest
  induction rest with
  | nil =>
    intro curPos cur traveled h
    simp only [advanceGo, chainLen, add_zero]
    exact (min_eq_right h).symm
  | cons next rest ih =>
    intro curPos cur traveled h
    simp only [advanceGo, chainLen]
    split
    · rename_i hle
      have h2 : target ≤ traveled + (gd curPos next + chainLen gd next rest) := by
        have := chainLen_nonneg hgd next rest
        linarith
      simp [min_eq_left h2]
    · rename_i hgt
      have hlt : traveled + gd curPos next ≤ target := le_of_not_le hgt
      rw [ih next (cur + 1) (traveled + gd curPos next) hlt]
      ring_nf

/-- The returned cursor index lies between the start index and the end of
the polyline. -/
theorem advanceGo_idx (gd : Point → Point → ℚ) (target : ℚ) :
    ∀ (rest : List Point) (curPos : Point) (cur : ℕ) (traveled : ℚ),
      cur ≤ (advanceGo gd target curPos cur traveled rest).2.1 ∧
      (advanceGo gd target curPos cur traveled rest).2.1 ≤ cur + rest.length := by
  intro rest
  induction rest with
  | nil =>
    intro curPos cur traveled
    simp only [advanceGo, List.length_nil, Nat.add_zero]
    exact ⟨le_refl _, le_refl _⟩
  | cons next rest ih =>
    intro curPos cur traveled
    simp only [advanceGo]
    split
    · simp
    · obtain ⟨h1, h2⟩ := ih next (cur + 1) (traveled + gd curPos next)
      refine ⟨le_trans (Nat.le_succ cur) h1, le_trans h2 (by simp only [List.length_cons]; omega)⟩

/-- The polyline length remaining at the returned cursor is at least the
remaining length at the start cursor minus the distance consumed. -/
theorem advanceGo_suffix (gd : Point → Point → ℚ) (target : ℚ) (pts : List Point) :
    ∀ (rest : List Point) (curPos : Point) (cur : ℕ) (traveled : ℚ),
      pts[cur]? = some curPos → rest = pts.drop (cur + 1) → traveled ≤ target →
      traveled + chainLen gd curPos rest - (advanceGo gd target curPos cur traveled rest).2.2 ≤
        suffixLen gd pts (advanceGo gd target curPos cur traveled rest).2.1 := by
  intro rest
  induction rest with
  | nil =>
    intro curPos cur traveled hcur hrest htr
    have hlt : cur < pts.length := by
      by_contra hge
      rw [List.getElem?_eq_none (le_of_not_lt hge)] at hcur
      exact Option.noConfusion hcur
    have hdrop : pts.drop cur = curPos :: pts.drop (cur + 1) := by
      rw [List.drop_eq_getElem_cons hlt]
      have : pts[cur] = curPos := by
        have := List.getElem?_eq_getElem hlt
        rw [this] at hcur
        exact (Option.some_injective _ hcur)
      rw [this]
    simp only [advanceGo, chainLen, suffixLen, hdrop, ← hrest]
    simp [chainLen]
  | cons next rest ih =>
    intro curPos cur traveled hcur hrest htr
    have hnext : pts[cur + 1]? = some next := by
      have := List.getElem?_drop pts (cur + 1) 0
      rw [← hrest] at this
      simpa using this.symm
    have hrest2 : rest = pts.drop (cur + 1 + 1) := by
      have := List.tail_drop pts (cur + 1)
      rw [← hrest] at this
      simpa using this
    have hlt : cur < pts.length := by
      by_contra hge
      rw [List.getElem?_eq_none (le_of_not_lt hge)] at hcur
      exact Option.noConfusion hcur
    have hdrop : pts.drop cur = curPos :: (next :: rest) := by
      rw [List.drop_eq_getElem_cons hlt, ← hrest]
      have : pts[cur] = curPos := by
        have h2 := List.getElem?_eq_getElem hlt
        rw [h2] at hcur
        exact (Option.some_injective _ hcur)
      rw [this]
    simp only [advanceGo, chainLen]
    split
    · rename_i hle
      simp only [suffixLen, hdrop]
      simp only [chainLen]
      linarith
    · rename_i hgt
      have hlt2 : traveled + gd curPos next ≤ target := le_of_not_le hgt
      have := ih next (cur + 1) (traveled + gd curPos next) hnext hrest2 hlt2
      linarith

/-- Overshoot: when the target exceeds the remaining chain length, the
traversal walks to the end of the polyline. -/
theorem advanceGo_overshoot {gd : Point → Point → ℚ} (hgd : ∀ a b, 0 ≤ gd a b) (target : ℚ) :
    ∀ (rest : List Point) (curPos : Point) (cur : ℕ) (traveled : ℚ),
      traveled + chainLen gd curPos rest < target →
      advanceGo gd target curPos cur traveled rest =
        ((curPos :: rest).getLast (List.cons_ne_nil _ _), cur + rest.length,
          traveled + chainLen gd curPos rest) := by
  intro rest
  induction rest with
  | nil =>
    intro curPos cur traveled h
    simp [advanceGo, chainLen]
  | cons next rest ih =>
    intro curPos cur traveled h
    have hch := chainLen_nonneg hgd next rest
    simp only [chainLen] at h
    have hgt : ¬ target ≤ traveled + gd curPos next := by
      simp only [not_le]
      linarith
    simp only [advanceGo, if_neg hgt]
    rw [ih next (cur + 1) (traveled + gd curPos next) (by linarith)]
    have hlast : (next :: rest).getLast (List.cons_ne_nil _ _) =
        (curPos :: next :: rest).getLast (List.cons_ne_nil _ _) :=
      (List.getLast_cons_cons curPos next rest).symm
    rw [hlast]
    simp only [List.length_cons, chainLen, Prod.mk.injEq]
    refine ⟨by trivial, by omega, by ring⟩

/-- Bridge: the remaining length at a valid index is the chain length of
the dropped suffix. -/
theorem suffixLen_eq (gd : Point → Point → ℚ) {pts : List Point} {i : ℕ} {p : Point}
    (hidx : pts[i]? = some p) :
    suffixLen gd pts i = chainLen gd p (pts.drop (i + 1)) := by
  have hlt : i < pts.length := by
    by_contra hge
    rw [List.getElem?_eq_none (le_of_not_lt hge)] at hidx
    exact Option.noConfusion hidx
  have hp : pts[i] = p := by
    have h2 := List.getElem?_eq_getElem hlt
    rw [h2] at hidx
    exact Option.some_injective _ hidx
  have hdrop : pts.drop i = p :: pts.drop (i + 1) := by
    rw [List.drop_eq_getElem_cons hlt, hp]
  simp only [suffixLen, hdrop]

/-- The index sum lemma for `prefixLen`. -/
theorem prefixLen_succ {gd : Point → Point → ℚ} {pts : List Point} {i : ℕ} {p q : Point}
    (hp : pts[i]? = some p) (hq : pts[i + 1]? = some q) :
    prefixLen gd pts (i + 1) = prefixLen gd pts i + gd p q := by
  have hq1 : i + 1 < pts.length := by
    by_contra hge
    rw [List.getElem?_eq_none (le_of_not_lt hge)] at hq
    exact Option.noConfusion hq
  have hlen : (segList gd pts).length = pts.length - 1 := by
    simp [segList, List.length_zipWith, List.length_tail]
  have hi : i < (segList gd pts).length := by omega
  have hseg : (segList gd pts)[i] = gd p q := by
    have h1 : (segList gd pts)[i]? = some (gd p q) := by
      have htail : pts.tail[i]? = some q := by
        rw [List.getElem?_tail]
        exact hq
      simp only [segList, List.getElem?_zipWith, hp, htail]
    have h2 := List.getElem?_eq_getElem hi
    rw [h2] at h1
    exact Option.some_injective _ h1
  simp only [prefixLen]
  rw [List.sum_take_succ _ _ hi, hseg]

/-- Interpolation case of the traversal: when the target does not exceed
the remaining length, the walk stops exactly at the target distance, on the
segment starting at the returned index, interpolating by the documented
fraction (0 for a degenerate segment). -/
theorem advanceGo_interp {gd : Point → Point → ℚ} (hgd : ∀ a b, 0 ≤ gd a b)
    (target : ℚ) (pts : List Point) :
    ∀ (rest : List Point) (curPos : Point) (cur : ℕ) (traveled : ℚ),
      pts[cur]? = some curPos → rest = pts.drop (cur + 1) →
      traveled = prefixLen gd pts cur → traveled ≤ target →
      target ≤ traveled + chainLen gd curPos rest →
      (rest = [] ∧ target = traveled ∧
        advanceGo gd target curPos cur traveled rest = (curPos, cur, traveled)) ∨
      (∃ a b t, pts[(advanceGo gd target curPos cur traveled rest).2.1]? = some a ∧
        pts[(advanceGo gd target curPos cur traveled rest).2.1 + 1]? = some b ∧
        advanceGo gd target curPos cur traveled rest =
          (lerp a b t, (advanceGo gd target curPos cur traveled rest).2.1, target) ∧
        t = (if 0 < gd a b then
              (target - prefixLen gd pts (advanceGo gd target curPos cur traveled rest).2.1) / gd a b
             else 0) ∧
        0 ≤ t ∧ t ≤ 1 ∧
        prefixLen gd pts (advanceGo gd target curPos cur traveled rest).2.1 ≤ target ∧
        target ≤ prefixLen gd pts ((advanceGo gd target curPos cur traveled rest).2.1 + 1)) := by
  intro rest
  induction rest with
  | nil =>
    intro curPos cur traveled hcur hrest htrav hle hub
    simp only [chainLen, add_zero] at hub
    left
    exact ⟨rfl, le_antisymm hub hle, by simp [advanceGo]⟩
  | cons next rest ih =>
    intro curPos cur traveled hcur hrest htrav hle hub
    have hnext : pts[cur + 1]? = some next := by
      have := List.getElem?_drop pts (cur + 1) 0
      rw [← hrest] at this
      simpa using this.symm
    have hrest2 : rest = pts.drop (cur + 1 + 1) := by
      have := List.tail_drop pts (cur + 1)
      rw [← hrest] at this
      simpa using this
    have hpre : prefixLen gd pts (cur + 1) = prefixLen gd pts cur + gd curPos next :=
      prefixLen_succ hcur hnext
    by_cases hbr : target ≤ traveled + gd curPos next
    · right
      have hres : advanceGo gd target curPos cur traveled (next :: rest) =
          (lerp curPos next
            (if 0 < gd curPos next then (target - traveled) / gd curPos next else 0),
           cur, target) := by
        simp only [advanceGo, if_pos hbr]
      refine ⟨curPos, next,
        (if 0 < gd curPos next then (target - traveled) / gd curPos next else 0),
        ?_, ?_, ?_, ?_, ?_, ?_, ?_, ?_⟩
      · rw [hres]; exact hcur
      · rw [hres]; exact hnext
      · rw [hres]
      · rw [hres, htrav]
      · split
        · rename_i hpos
          have : 0 ≤ target - traveled := by linarith
          positivity
        · exact le_refl 0
      · split
        · rename_i hpos
          rw [div_le_one hpos]
          linarith
        · exact zero_le_one
      · rw [hres, ← htrav]; exact hle
      · rw [hres, hpre, ← htrav]; exact hbr
    · have hstep : advanceGo gd target curPos cur traveled (next :: rest) =
          advanceGo gd target next (cur + 1) (traveled + gd curPos next) rest := by
        simp only [advanceGo, if_neg hbr]
      have hle2 : traveled + gd curPos next ≤ target := le_of_lt (lt_of_not_le hbr)
      have htrav2 : traveled + gd curPos next = prefixLen gd pts (cur + 1) := by
        rw [hpre, htrav]
      have hub2 : target ≤ traveled + gd curPos next + chainLen gd next rest := by
        simp only [chainLen] at hub
        linarith
      have := ih next (cur + 1) (traveled + gd curPos next) hnext hrest2 htrav2 hle2 hub2
      rcases this with ⟨hnil, heq, hgo⟩ | hmain
      · exfalso
        subst hnil
        simp only [chainLen, add_zero] at hub2
        exact absurd heq (by linarith [lt_of_not_le hbr])
      · rw [hstep]
        exact Or.inr hmain

/-- Combined specification of `_advance_along_route` from a valid start
index: the distance returned is the target capped by the remaining
polyline length, the returned index is valid and at least the start index,
and the polyline length remaining at the returned index is at least the
remaining trip portion not consumed. -/
theorem advance_spec {gd : Point → Point → ℚ} (hgd : ∀ a b, 0 ≤ gd a b)
    {pts : List Point} {i : ℕ} {p : Point} (hidx : pts[i]? = some p)
    {target : ℚ} (h0 : 0 ≤ target) :
    ∃ pos j, advanceAlongRoute gd pts i target = some (pos, j, min target (suffixLen gd pts i)) ∧
      i ≤ j ∧ j < pts.length ∧
      suffixLen gd pts i - min target (suffixLen gd pts i) ≤ suffixLen gd pts j := by
  have hlt : i < pts.length := by
    by_contra hge
    rw [List.getElem?_eq_none (le_of_not_lt hge)] at hidx
    exact Option.noConfusion hidx
  have hsfx := suffixLen_eq gd hidx
  have hdist := advanceGo_dist hgd target (pts.drop (i + 1)) p i 0 h0
  have hidxb := advanceGo_idx gd target (pts.drop (i + 1)) p i 0
  have hsuf := advanceGo_suffix gd target pts (pts.drop (i + 1)) p i 0 hidx rfl h0
  refine ⟨(advanceGo gd target p i 0 (pts.drop (i + 1))).1,
          (advanceGo gd target p i 0 (pts.drop (i + 1))).2.1, ?_, ?_, ?_, ?_⟩
  · simp only [advanceAlongRoute, hidx]
    rw [hsfx, ← zero_add (chainLen gd p (pts.drop (i + 1))), ← hdist]
  · exact hidxb.1
  · have := hidxb.2
    have hlen : (pts.drop (i + 1)).length = pts.length - (i + 1) := List.length_drop _ _
    omega
  · rw [hsfx]
    rw [hdist, zero_add] at hsuf
    exact hsuf

end FuelOpt

/-! ## Loop invariant preservation -/

namespace FuelOpt

theorem suffixLen_nonneg {gd : Point → Point → ℚ} (hgd : ∀ a b, 0 ≤ gd a b)
    (pts : List Point) (i : ℕ) : 0 ≤ suffixLen gd pts i := by
  unfold suffixLen
  split
  · exact le_refl 0
  · exact chainLen_nonneg hgd _ _

theorem advanceAlongRoute_isSome {gd : Point → Point → ℚ} {pts : List Point} {i : ℕ}
    {target : ℚ} {x : Point × ℕ × ℚ}
    (h : advanceAlongRoute gd pts i target = some x) :
    ∃ p, pts[i]? = some p ∧ x = advanceGo gd target p i 0 (pts.drop (i + 1)) := by
  unfold advanceAlongRoute at h
  cases hidx : pts[i]? with
  | none => rw [hidx] at h; exact Option.noConfusion h
  | some p =>
    rw [hidx] at h
    exact ⟨p, rfl, (Option.some_injective _ h).symm⟩

theorem getLast?_cons_getLastD (x : ℚ) (l : List ℚ) :
    (x :: l).getLast? = some (l.getLastD x) := by
  induction l generalizing x with
  | nil => rfl
  | cons y ys ih => rw [List.getLast?_cons_cons, ih y, List.getLastD_cons]

/-- One loop iteration preserves the invariant. -/
theorem inv_planStep {gd : Point → Point → ℚ} {coords : List (String × Point)}
    {stations : List Station} {pts : List Point} {total : ℚ} {s s2 : LoopState}
    (hgd : ∀ a b, 0 ≤ gd a b) (hcov : s.distance_covered < total) (hinv : Inv total s)
    (hok : planStep gd coords stations pts total s = Except.ok s2) : Inv total s2 := by
  have h0 : (0 : ℚ) ≤ min s.remaining_range (total - s.distance_covered) :=
    le_min hinv.range_nonneg (by linarith)
  rcases hadv : advanceAlongRoute gd pts s.route_index
      (min s.remaining_range (total - s.distance_covered)) with _ | ⟨pos, j, d⟩
  · simp only [planStep] at hok
    rw [hadv] at hok
    simp at hok
  · obtain ⟨p, hidx, hgo⟩ := advanceAlongRoute_isSome hadv
    have hd : d = min (min s.remaining_range (total - s.distance_covered))
        (suffixLen gd pts s.route_index) := by
      have h1 := advanceGo_dist hgd (min s.remaining_range (total - s.distance_covered))
        (pts.drop (s.route_index + 1)) p s.route_index 0 h0
      have h2 : d = (advanceGo gd (min s.remaining_range (total - s.distance_covered)) p
          s.route_index 0 (pts.drop (s.route_index + 1))).2.2 := by rw [← hgo]
      rw [h2, h1, zero_add, suffixLen_eq gd hidx]
    have hd0 : 0 ≤ d := by
      rw [hd]
      exact le_min h0 (suffixLen_nonneg hgd pts s.route_index)
    have hdle : d ≤ s.remaining_range := by
      rw [hd]
      exact le_trans (min_le_left _ _) (min_le_left _ _)
    have hdle2 : d ≤ total - s.distance_covered := by
      rw [hd]
      exact le_trans (min_le_left _ _) (min_le_right _ _)
    simp only [planStep] at hok
    rw [hadv] at hok
    dsimp only at hok
    by_cases hrf : s.distance_covered + d < total ∧ s.remaining_range - d < 100
    · rw [if_pos hrf] at hok
      have hlink : s.distance_covered + d - lastCov s ≤ max_range_miles := by
        have htank := hinv.tank
        have h5 : max_range_miles = (500 : ℚ) := rfl
        rw [h5] at htank ⊢
        linarith
      have hchain2 : List.Chain' (fun a b => b - a ≤ max_range_miles)
          ((0 :: s.events.map Event.covered) ++ [s.distance_covered + d]) := by
        rw [List.chain'_append]
        refine ⟨hinv.chain, List.chain'_singleton _, ?_⟩
        intro x hx y hy
        rw [getLast?_cons_getLastD] at hx
        simp only [List.head?_cons, Option.mem_def, Option.some.injEq] at hx hy
        subst hx
        subst hy
        exact hlink
      rcases hmin : pythonMinByPrice (findNearbyStations gd coords stations pos)
          with _ | best
      all_goals rw [hmin] at hok
      all_goals dsimp only at hok
      all_goals injection hok with hok2
      all_goals subst hok2
      all_goals refine ⟨?_, ?_, ?_, ?_, ?_, ?_, ?_, ?_⟩
      all_goals dsimp only [lastCov]
      · norm_num [max_range_miles]
      · exact le_refl _
      · linarith
      · simp only [List.map_append, List.map_cons, List.map_nil, List.getLastD_concat]
        ring
      · simp only [List.map_append, List.map_cons, List.map_nil]
        exact hchain2
      · simp only [List.map_append, List.map_cons, List.map_nil, List.getLastD_concat]
        exact le_refl _
      · simp only [List.map_append, List.map_cons, List.map_nil, hinv.stops_events]
      · intro e he
        rw [List.mem_append] at he
        rcases he with he | he
        · exact hinv.gallons_ok e he
        · simp only [List.mem_singleton] at he
          subst he
          dsimp only
          refine ⟨by linarith, hrf.2, rfl⟩
      · norm_num [max_range_miles]
      · exact le_refl _
      · linarith
      · simp only [List.map_append, List.map_cons, List.map_nil, List.getLastD_concat]
        ring
      · simp only [List.map_append, List.map_cons, List.map_nil]
        exact hchain2
      · simp only [List.map_append, List.map_cons, List.map_nil, List.getLastD_concat]
        exact le_refl _
      · simp only [List.map_append, List.map_cons, List.map_nil, hinv.stops_events]
      · intro e he
        rw [List.mem_append] at he
        rcases he with he | he
        · exact hinv.gallons_ok e he
        · simp only [List.mem_singleton] at he
          subst he
          dsimp only
          refine ⟨by linarith, hrf.2, rfl⟩
    · rw [if_neg hrf] at hok
      injection hok with hok2
      subst hok2
      have htank := hinv.tank
      have hlcle := hinv.lastcov_le
      unfold lastCov at htank hlcle
      refine ⟨?_, ?_, ?_, ?_, ?_, ?_, ?_, ?_⟩
      all_goals dsimp only [lastCov]
      · linarith
      · linarith [hinv.range_le]
      · linarith
      · linarith
      · exact hinv.chain
      · linarith
      · exact hinv.stops_events
      · exact hinv.gallons_ok

/-- The invariant holds initially. -/
theorem inv_init {total : ℚ} (htot : 0 ≤ total) : Inv total initState := by
  refine ⟨?_, ?_, ?_, ?_, ?_, ?_, ?_, ?_⟩ <;>
    simp [initState, lastCov, max_range_miles]
  exact htot

/-- A finished state is returned unchanged for any remaining fuel. -/
theorem runLoop_done {gd : Point → Point → ℚ} {coords : List (String × Point)}
    {stations : List Station} {pts : List Point} {total : ℚ} {s : LoopState}
    (h : total ≤ s.distance_covered) (n : ℕ) :
    runLoop gd coords stations pts total n s = some (Except.ok s) := by
  cases n <;> simp [runLoop, h]

/-- A successful run from an invariant state ends in an invariant state that
has covered the whole trip. -/
theorem runLoop_inv {gd : Point → Point → ℚ} {coords : List (String × Point)}
    {stations : List Station} {pts : List Point} {total : ℚ}
    (hgd : ∀ a b, 0 ≤ gd a b) :
    ∀ (n : ℕ) (s out : LoopState), Inv total s →
      runLoop gd coords stations pts total n s = some (Except.ok out) →
      Inv total out ∧ total ≤ out.distance_covered := by
  intro n
  induction n with
  | zero =>
    intro s out hinv hrun
    unfold runLoop at hrun
    by_cases h : total ≤ s.distance_covered
    · rw [if_pos h] at hrun
      simp only [Option.some.injEq, Except.ok.injEq] at hrun
      subst hrun
      exact ⟨hinv, h⟩
    · rw [if_neg h] at hrun
      exact Option.noConfusion hrun
  | succ n ih =>
    intro s out hinv hrun
    unfold runLoop at hrun
    by_cases h : total ≤ s.distance_covered
    · rw [if_pos h] at hrun
      simp only [Option.some.injEq, Except.ok.injEq] at hrun
      subst hrun
      exact ⟨hinv, h⟩
    · rw [if_neg h] at hrun
      rcases hstep : planStep gd coords stations pts total s with e | s3
      all_goals rw [hstep] at hrun
      · simp at hrun
      · exact ih s3 out (inv_planStep hgd (lt_of_not_le h) hinv hstep) hrun

/-- Strong step lemma under the extra hypotheses that the tank is full and
the polyline still covers the rest of the trip: the iteration either
finishes the trip (when at most a tank's range remains) or advances by
exactly one full tank and refuels. -/
theorem planStep_full (gd : Point → Point → ℚ) (coords : List (String × Point))
    (stations : List Station) (pts : List Point) (total : ℚ)
    (hgd : ∀ a b, 0 ≤ gd a b) (s : LoopState) {p : Point}
    (hidx : pts[s.route_index]? = some p)
    (hsuf : total - s.distance_covered ≤ suffixLen gd pts s.route_index)
    (hcov : s.distance_covered < total) (hrem : s.remaining_range = max_range_miles) :
    ∃ s2, planStep gd coords stations pts total s = Except.ok s2 ∧
      (∃ q, pts[s2.route_index]? = some q) ∧
      total - s2.distance_covered ≤ suffixLen gd pts s2.route_index ∧
      s2.distance_covered ≤ total ∧
      ((total ≤ s.distance_covered + 500 ∧ s2.distance_covered = total ∧
        s2.events = s.events ∧ s2.fuel_stops = s.fuel_stops) ∨
       (s.distance_covered + 500 < total ∧ s2.distance_covered = s.distance_covered + 500 ∧
        s2.remaining_range = max_range_miles ∧
        (∃ e, s2.events = s.events ++ [e] ∧ e.covered = s.distance_covered + 500 ∧
          e.gallons = 50) ∧
        (∃ st, s2.fuel_stops = s.fuel_stops ++ [st] ∧
          st.distance_from_start = round2 (s.distance_covered + 500) ∧
          st.gallons_purchased = round2 50))) := by
  have h5 : max_range_miles = (500 : ℚ) := rfl
  have h0 : (0 : ℚ) ≤ min s.remaining_range (total - s.distance_covered) :=
    le_min (by rw [hrem, h5]; norm_num) (by linarith)
  obtain ⟨pos, j, hadv, hij, hjlt, hsufj⟩ := advance_spec hgd hidx h0
  have hjget : ∃ q, pts[j]? = some q := ⟨pts[j], List.getElem?_eq_getElem hjlt⟩
  by_cases hcase : total ≤ s.distance_covered + 500
  · -- final leg: the remaining trip fits in the tank
    have htar : min s.remaining_range (total - s.distance_covered) =
        total - s.distance_covered := min_eq_right (by rw [hrem, h5]; linarith)
    have hd : min (min s.remaining_range (total - s.distance_covered))
        (suffixLen gd pts s.route_index) = total - s.distance_covered := by
      rw [htar]
      exact min_eq_left hsuf
    rw [hd] at hadv hsufj
    simp only [planStep]
    rw [hadv]
    dsimp only
    rw [if_neg (by rintro ⟨h1, -⟩; linarith)]
    refine ⟨_, rfl, ?_, ?_, ?_, Or.inl ⟨hcase, ?_, rfl, rfl⟩⟩
    · exact hjget
    · dsimp only
      have : s.distance_covered + (total - s.distance_covered) = total := by ring
      rw [this]
      simp only [sub_self]
      linarith [hsufj, hsuf]
    · dsimp only
      linarith
    · dsimp only
      ring
  · -- full-tank leg followed by a refuel
    have hlt : s.distance_covered + 500 < total := lt_of_not_le hcase
    have htar : min s.remaining_range (total - s.distance_covered) = s.remaining_range :=
      min_eq_left (by rw [hrem, h5]; linarith)
    have hd : min (min s.remaining_range (total - s.distance_covered))
        (suffixLen gd pts s.route_index) = s.remaining_range := by
      rw [htar]
      refine min_eq_left ?_
      rw [hrem, h5]
      linarith
    rw [hd] at hadv hsufj
    rw [hrem, h5] at hsufj
    simp only [planStep]
    rw [hadv]
    dsimp only
    rw [hrem, h5]
    rw [if_pos ⟨by linarith, by norm_num⟩]
    have hnew : total - (s.distance_covered + 500) ≤
        suffixLen gd pts j := by linarith [hsufj]
    have hgal : ((500 : ℚ) - ((500 : ℚ) - 500)) / mpg = (50 : ℚ) := by
      norm_num [mpg]
    rcases hmin : pythonMinByPrice (findNearbyStations gd coords stations pos) with _ | best
    all_goals dsimp only
    · refine ⟨_, rfl, hjget, hnew, by dsimp only; linarith,
        Or.inr ⟨hlt, rfl, rfl, ⟨_, rfl, rfl, hgal⟩, ⟨_, rfl, rfl, by rw [hgal]⟩⟩⟩
    · refine ⟨_, rfl, hjget, hnew, by dsimp only; linarith,
        Or.inr ⟨hlt, rfl, rfl, ⟨_, rfl, rfl, hgal⟩, ⟨_, rfl, rfl, by rw [hgal]⟩⟩⟩

/-- Termination of the loop when the polyline covers the trip: `n`
iterations suffice as soon as `500 * n` miles do. -/
theorem runLoop_total {gd : Point → Point → ℚ} {coords : List (String × Point)}
    {stations : List Station} {pts : List Point} {total : ℚ}
    (hgd : ∀ a b, 0 ≤ gd a b) :
    ∀ (n : ℕ) (s : LoopState) (p : Point), pts[s.route_index]? = some p →
      total - s.distance_covered ≤ suffixLen gd pts s.route_index →
      s.remaining_range = max_range_miles → s.distance_covered ≤ total →
      total ≤ s.distance_covered + 500 * (n : ℚ) →
      ∃ out, runLoop gd coords stations pts total n s = some (Except.ok out) ∧
        out.distance_covered = total := by
  intro n
  induction n with
  | zero =>
    intro s p hidx hsuf hrem hcov hn
    push_cast at hn
    have hdone : total ≤ s.distance_covered := by linarith
    refine ⟨s, ?_, le_antisymm hcov hdone⟩
    unfold runLoop
    rw [if_pos hdone]
  | succ n ih =>
    intro s p hidx hsuf hrem hcov hn
    by_cases hdone : total ≤ s.distance_covered
    · exact ⟨s, runLoop_done hdone _, le_antisymm hcov hdone⟩
    · obtain ⟨s2, hps, ⟨q, hq⟩, hsuf2, hcov2, hcase⟩ :=
        planStep_full gd coords stations pts total hgd s hidx hsuf (lt_of_not_le hdone) hrem
      unfold runLoop
      rw [if_neg hdone, hps]
      dsimp only
      rcases hcase with ⟨hA, hAcov, -, -⟩ | ⟨hB, hBcov, hBrem, -, -⟩
      · exact ⟨s2, runLoop_done (le_of_eq hAcov.symm) n, hAcov⟩
      · refine ih s2 q hq hsuf2 hBrem hcov2 ?_
        push_cast at hn ⊢
        rw [hBcov]
        linarith

/-- The concrete distance function is nonnegative. -/
theorem taxi_nonneg : ∀ a b, 0 ≤ taxi a b := by
  intro a b
  unfold taxi
  positivity

/-- One unfolding step of the fuel-indexed loop runner. -/
theorem runLoop_step {gd : Point → Point → ℚ} {coords : List (String × Point)}
    {stations : List Station} {pts : List Point} {total : ℚ} {s s2 : LoopState}
    (h : ¬ total ≤ s.distance_covered)
    (hps : planStep gd coords stations pts total s = Except.ok s2) (n : ℕ) :
    runLoop gd coords stations pts total (n + 1) s =
      runLoop gd coords stations pts total n s2 := by
  conv_lhs => rw [runLoop]
  rw [if_neg h, hps]

/-- Concrete evaluation: the 1200-mile straight route with no stations
loaded runs to completion in 3 iterations and returns `plan1200`. -/
theorem run1200_eq :
    findOptimalFuelStops taxi [] [] pts1200 1200 3 = some (Except.ok plan1200) := by
  norm_num [findOptimalFuelStops, getStationsNearRoute, dedupFold, statesNearRoute, routeSample,
    sliceStep, runLoop, planStep, advanceAlongRoute, advanceGo, findNearbyStations, sortByPrice,
    pythonMinByPrice, avgPrice, initState, max_range_miles, mpg, round2, round_eq, taxi, lerp,
    pts1200, plan1200, estStop1200, estEvent1200]

/-- Concrete evaluation: the first iteration of the same run emits the
first estimated stop and resets the tank. -/
theorem step1200_eq :
    planStep taxi [] [] pts1200 1200 initState = Except.ok state1200 := by
  norm_num [planStep, advanceAlongRoute, advanceGo, findNearbyStations, sortByPrice,
    pythonMinByPrice, avgPrice, initState, max_range_miles, mpg, round2, round_eq, taxi, lerp,
    pts1200, state1200, estStop1200, estEvent1200]

/-- The planning loop makes no progress on a one-point route that is
shorter than the claimed total distance. -/
theorem runLoop_stuck :
    ∀ n : ℕ, runLoop taxi [] [] [((0 : ℚ), (0 : ℚ))] 100 n initState = none := by
  have hstep : planStep taxi [] [] [((0 : ℚ), (0 : ℚ))] 100 initState =
      Except.ok initState := by
    norm_num [planStep, advanceAlongRoute, advanceGo, initState, max_range_miles,
      taxi, findNearbyStations, pythonMinByPrice, sortByPrice]
  intro n
  induction n with
  | zero =>
    unfold runLoop
    rw [if_neg (by norm_num [initState])]
  | succ n ih =>
    rw [runLoop_step (by norm_num [initState]) hstep n]
    exact ih

/-! ## Claims -/

/-- C1 (counterexample): the planning loop of `find_optimal_fuel_stops`
does not terminate for every route polyline with at least one point and
every total distance ≥ 0: on the one-point polyline `[(0, 0)]` with total
distance 100, every iteration advances by 0 miles (the polyline is
exhausted), `distance_covered` stays 0, and no number of iterations
finishes the loop. -/
theorem c1_counterexample :
    ¬ ∃ (n : ℕ) (r : Except PlanErr LoopState),
      runLoop taxi [] [] [((0 : ℚ), (0 : ℚ))] 100 n initState = some r := by
  rintro ⟨n, r, hr⟩
  rw [runLoop_stuck n] at hr
  exact Option.noConfusion hr

/-- C1 (amended): when the polyline is nonempty and its total length
covers the total trip distance, the planning loop terminates — any fuel
`n` with `total ≤ 500 * n` suffices, each such iteration advances
`distance_covered` by exactly `min remaining_range (total - covered)`,
the final state has covered exactly the total distance, and a zero-length
trip (`total = 0`) finishes with zero iterations (`n = 0`). -/
theorem c1_loop_terminates (gd : Point → Point → ℚ) (coords : List (String × Point))
    (stations : List Station) (pts : List Point) (total : ℚ) (n : ℕ)
    (hgd : ∀ a b, 0 ≤ gd a b) (hne : pts ≠ []) (htot : 0 ≤ total)
    (hcover : total ≤ polylineLength gd pts) (hn : total ≤ 500 * (n : ℚ)) :
    ∃ out, runLoop gd coords stations pts total n initState = some (Except.ok out) ∧
      out.distance_covered = total := by
  obtain ⟨p, hp⟩ : ∃ p, pts[0]? = some p := by
    cases pts with
    | nil => exact absurd rfl hne
    | cons a l => exact ⟨a, by simp⟩
  refine runLoop_total hgd n initState p hp ?_ rfl htot ?_
  · show total - (0 : ℚ) ≤ suffixLen gd pts 0
    simp only [sub_zero]
    exact hcover
  · show total ≤ (0 : ℚ) + 500 * (n : ℚ)
    linarith

/-- C1 (witness): on the 1200-mile straight route, 3 iterations finish. -/
theorem c1_witness :
    (∀ a b, 0 ≤ taxi a b) ∧ pts1200 ≠ [] ∧ ((0 : ℚ) ≤ 1200) ∧
      (1200 : ℚ) ≤ polylineLength taxi pts1200 ∧ (1200 : ℚ) ≤ 500 * ((3 : ℕ) : ℚ) ∧
      ∃ out, runLoop taxi [] [] pts1200 1200 3 initState = some (Except.ok out) ∧
        out.distance_covered = 1200 := by
  have h4 : (1200 : ℚ) ≤ polylineLength taxi pts1200 := by
    norm_num [polylineLength, suffixLen, chainLen, pts1200, taxi]
  exact ⟨taxi_nonneg, by simp [pts1200], by norm_num, h4, by norm_num,
    c1_loop_terminates taxi [] [] pts1200 1200 3 taxi_nonneg (by simp [pts1200])
      (by norm_num) h4 (by norm_num)⟩

/-- C2: for every input on which `find_optimal_fuel_stops` returns a plan,
the exact distances of the refuel events (the ghost trace behind the
emitted stops) are such that the gap from the start to the first event,
between consecutive events, and from the last event to the trip end never
exceeds the maximum range of 500 miles; moreover the emitted stops record
precisely these event distances rounded to 2 decimals. -/
theorem c2_range_safety (gd : Point → Point → ℚ) (coords : List (String × Point))
    (raws : List RawStation) (pts : List Point) (total : ℚ) (n : ℕ) (plan : PlanResult)
    (hgd : ∀ a b, 0 ≤ gd a b) (htot : 0 ≤ total)
    (hrun : findOptimalFuelStops gd coords raws pts total n = some (Except.ok plan)) :
    List.Chain' (fun a b => b - a ≤ max_range_miles)
      ((0 :: plan.events.map Event.covered) ++ [total]) ∧
    plan.fuel_stops.map FuelStop.distance_from_start
      = plan.events.map (fun e => round2 e.covered) := by
  cases pts with
  | nil => simp [findOptimalFuelStops] at hrun
  | cons p rest =>
    simp only [findOptimalFuelStops] at hrun
    rcases hrl : runLoop gd coords (getStationsNearRoute gd coords raws (p :: rest))
        (p :: rest) total n initState with _ | er
    · rw [hrl] at hrun
      simp at hrun
    · rcases er with e | s
      all_goals rw [hrl] at hrun
      · simp at hrun
      · dsimp only at hrun
        simp only [Option.some.injEq, Except.ok.injEq] at hrun
        subst hrun
        obtain ⟨hinvf, hle⟩ := runLoop_inv hgd n initState s (inv_init htot) hrl
        have hcovt : s.distance_covered = total := le_antisymm hinvf.covered_le hle
        constructor
        · dsimp only
          rw [List.chain'_append]
          refine ⟨hinvf.chain, List.chain'_singleton _, ?_⟩
          intro x hx y hy
          rw [getLast?_cons_getLastD] at hx
          simp only [List.head?_cons, Option.mem_def, Option.some.injEq] at hx hy
          subst hx
          subst hy
          have htank := hinvf.tank
          have hr0 := hinvf.range_nonneg
          unfold lastCov at htank
          rw [← hcovt]
          linarith
        · exact hinvf.stops_events

/-- C2 (witness): the 1200-mile run satisfies the range-safety chain. -/
theorem c2_witness :
    ((0 : ℚ) ≤ 1200) ∧
    findOptimalFuelStops taxi [] [] pts1200 1200 3 = some (Except.ok plan1200) ∧
    List.Chain' (fun a b => b - a ≤ max_range_miles)
      ((0 :: plan1200.events.map Event.covered) ++ [1200]) :=
  ⟨by norm_num, run1200_eq,
    (c2_range_safety taxi [] [] pts1200 1200 3 plan1200 taxi_nonneg (by norm_num)
      run1200_eq).1⟩

/-- C3 (counterexample): on the empty polyline, `find_optimal_fuel_stops`
does not return an empty plan and does not avoid the out-of-range access:
it raises the `IndexError` of `route_points[0]` (line 118), i.e. the very
out-of-range indexing the claim excludes. -/
theorem c3_counterexample :
    findOptimalFuelStops taxi [] [] [] 100 5 = some (Except.error PlanErr.indexError) := rfl

/-- C3 (amended): on a zero-element route polyline the planner rejects by
raising an index-out-of-range error when reading the start position (after
the station query, which succeeds); it does not loop indefinitely and does
not return an empty plan. -/
theorem c3_empty_route (gd : Point → Point → ℚ) (coords : List (String × Point))
    (raws : List RawStation) (total : ℚ) (n : ℕ) :
    findOptimalFuelStops gd coords raws [] total n =
      some (Except.error PlanErr.indexError) := rfl

/-- C10: one planning iteration started below the trip end with a tank
level in `[0, 500]` keeps the level in `[0, 500]` (the advance consumes at
most the current remaining range, so the level never goes negative), and
when it emits a refuel event the tank is reset to exactly the maximum
range and the unrounded gallons purchased, `(max_range - remaining) / mpg`,
lie between 40 and 50. -/
theorem c10_tank_invariant (gd : Point → Point → ℚ) (coords : List (String × Point))
    (stations : List Station) (pts : List Point) (total : ℚ) (s s2 : LoopState)
    (hgd : ∀ a b, 0 ≤ gd a b) (hcov : s.distance_covered < total)
    (h0r : 0 ≤ s.remaining_range) (h5r : s.remaining_range ≤ max_range_miles)
    (hok : planStep gd coords stations pts total s = Except.ok s2) :
    (0 ≤ s2.remaining_range ∧ s2.remaining_range ≤ max_range_miles) ∧
    (s2.events = s.events ∨
      ∃ e, s2.events = s.events ++ [e] ∧ s2.remaining_range = max_range_miles ∧
        e.gallons = (max_range_miles - e.remaining_before) / mpg ∧
        40 ≤ e.gallons ∧ e.gallons ≤ 50) := by
  have h5 : max_range_miles = (500 : ℚ) := rfl
  have h0 : (0 : ℚ) ≤ min s.remaining_range (total - s.distance_covered) :=
    le_min h0r (by linarith)
  rcases hadv : advanceAlongRoute gd pts s.route_index
      (min s.remaining_range (total - s.distance_covered)) with _ | ⟨pos, j, d⟩
  · simp only [planStep] at hok
    rw [hadv] at hok
    simp at hok
  · obtain ⟨p, hidx, hgo⟩ := advanceAlongRoute_isSome hadv
    have hd : d = min (min s.remaining_range (total - s.distance_covered))
        (suffixLen gd pts s.route_index) := by
      have h1 := advanceGo_dist hgd (min s.remaining_range (total - s.distance_covered))
        (pts.drop (s.route_index + 1)) p s.route_index 0 h0
      have h2 : d = (advanceGo gd (min s.remaining_range (total - s.distance_covered)) p
          s.route_index 0 (pts.drop (s.route_index + 1))).2.2 := by rw [← hgo]
      rw [h2, h1, zero_add, suffixLen_eq gd hidx]
    have hd0 : 0 ≤ d := by
      rw [hd]
      exact le_min h0 (suffixLen_nonneg hgd pts s.route_index)
    have hdle : d ≤ s.remaining_range := by
      rw [hd]
      exact le_trans (min_le_left _ _) (min_le_left _ _)
    simp only [planStep] at hok
    rw [hadv] at hok
    dsimp only at hok
    by_cases hrf : s.distance_covered + d < total ∧ s.remaining_range - d < 100
    · rw [if_pos hrf] at hok
      rcases hmin : pythonMinByPrice (findNearbyStations gd coords stations pos)
          with _ | best
      all_goals rw [hmin] at hok
      all_goals dsimp only at hok
      all_goals injection hok with hok2
      all_goals subst hok2
      all_goals refine ⟨⟨by norm_num [max_range_miles], le_refl _⟩, Or.inr ⟨_, rfl, rfl, rfl, ?_, ?_⟩⟩
      all_goals dsimp only
      all_goals rw [h5, show mpg = (10 : ℚ) from rfl]
      · have := hrf.2
        linarith
      · linarith
      · have := hrf.2
        linarith
      · linarith
    · rw [if_neg hrf] at hok
      injection hok with hok2
      subst hok2
      exact ⟨⟨by dsimp only; linarith, by dsimp only; linarith⟩, Or.inl rfl⟩

/-- C10 (witness): the first iteration of the 1200-mile run. -/
theorem c10_witness :
    ((0 : ℚ) < 1200) ∧ ((0 : ℚ) ≤ (500 : ℚ)) ∧
    planStep taxi [] [] pts1200 1200 initState = Except.ok state1200 ∧
    ((0 ≤ state1200.remaining_range ∧ state1200.remaining_range ≤ max_range_miles) ∧
      (state1200.events = initState.events ∨
        ∃ e, state1200.events = initState.events ++ [e] ∧
          state1200.remaining_range = max_range_miles ∧
          e.gallons = (max_range_miles - e.remaining_before) / mpg ∧
          40 ≤ e.gallons ∧ e.gallons ≤ 50)) :=
  ⟨by norm_num, by norm_num, step1200_eq,
    c10_tank_invariant taxi [] [] pts1200 1200 initState state1200 taxi_nonneg
      (by norm_num [initState]) (by norm_num [initState, max_range_miles])
      (by norm_num [initState, max_range_miles]) step1200_eq⟩

/-- Dropping up to the last element keeps the last element. -/
theorem getLast?_drop_of_lt :
    ∀ (pts : List Point) (n : ℕ), n < pts.length → (pts.drop n).getLast? = pts.getLast? := by
  intro pts
  induction pts with
  | nil => intro n h; simp at h
  | cons a l ih =>
    intro n h
    cases n with
    | zero => rfl
    | succ m =>
      simp only [List.drop_succ_cons]
      have hm : m < l.length := by
        simp only [List.length_cons] at h
        omega
      rw [ih m hm]
      cases l with
      | nil => simp at hm
      | cons b l2 => rw [List.getLast?_cons_cons]

/-- C6: for a target distance `d` between 0 and the total polyline length,
`_advance_along_route(points, 0, d)` reports exactly `d` miles traveled
(exact in this rational model; the claim allows floating tolerance) and a
position that is the linear interpolation, in both coordinates, between
the two endpoints of the segment at the returned index — the segment whose
prefix lengths bracket `d` — at a fraction in `[0, 1]` equal to the
remaining distance over the segment length, with a zero-length segment
interpolating at fraction 0 (so no division by zero occurs). -/
theorem c6_traversal_exactness (gd : Point → Point → ℚ) (pts : List Point) (d : ℚ)
    (hgd : ∀ a b, 0 ≤ gd a b) (hne : pts ≠ []) (h0 : 0 ≤ d)
    (hle : d ≤ polylineLength gd pts) :
    ∃ pos j, advanceAlongRoute gd pts 0 d = some (pos, j, d) ∧
      ((pts.length = 1 ∧ pts[0]? = some pos) ∨
       (∃ a b t, pts[j]? = some a ∧ pts[j + 1]? = some b ∧ pos = lerp a b t ∧
         0 ≤ t ∧ t ≤ 1 ∧ (gd a b = 0 → t = 0) ∧
         t = (if 0 < gd a b then (d - prefixLen gd pts j) / gd a b else 0) ∧
         prefixLen gd pts j ≤ d ∧ d ≤ prefixLen gd pts (j + 1))) := by
  obtain ⟨p, rest, rfl⟩ : ∃ p rest, pts = p :: rest := by
    cases pts with
    | nil => exact absurd rfl hne
    | cons p rest => exact ⟨p, rest, rfl⟩
  have hp0 : (p :: rest)[0]? = some p := by simp
  have hub : d ≤ 0 + chainLen gd p ((p :: rest).drop 1) := by
    rw [zero_add]
    have := suffixLen_eq gd hp0
    rw [← this]
    exact hle
  have htrav0 : (0 : ℚ) = prefixLen gd (p :: rest) 0 := by simp [prefixLen]
  have h := advanceGo_interp hgd d (p :: rest) ((p :: rest).drop 1) p 0 0 hp0 rfl htrav0 h0 hub
  rcases hres : advanceGo gd d p 0 0 ((p :: rest).drop 1) with ⟨pos, j, dist⟩
  rw [hres] at h
  dsimp only at h
  have hroute : advanceAlongRoute gd (p :: rest) 0 d = some (pos, j, dist) := by
    simp only [advanceAlongRoute, hp0, hres]
  rcases h with ⟨hnil, heq, hval⟩ | ⟨a, b, t, ha, hb, hval, ht, ht0, ht1, hpl, hpu⟩
  · have hrest : rest = [] := by simpa using hnil
    subst hrest
    refine ⟨p, 0, ?_, Or.inl ⟨rfl, by simp⟩⟩
    have h1 : pos = p ∧ j = 0 ∧ dist = 0 := by
      simpa using hval
    rw [hroute, h1.1, h1.2.1, h1.2.2, ← heq]
  · have hcomp : pos = lerp a b t ∧ dist = d := by
      simp only [Prod.mk.injEq] at hval
      exact ⟨hval.1, hval.2.2⟩
    refine ⟨pos, j, by rw [hroute, hcomp.2], Or.inr ⟨a, b, t, ha, hb, hcomp.1, ht0, ht1,
      ?_, ht, hpl, hpu⟩⟩
    intro hz
    rw [ht, if_neg (by rw [hz]; exact lt_irrefl 0)]

/-- C6 (witness): advancing 300 miles along the 1200-mile segment. -/
theorem c6_witness :
    (∀ a b, 0 ≤ taxi a b) ∧ pts1200 ≠ [] ∧ ((0 : ℚ) ≤ 300) ∧
      ((300 : ℚ) ≤ polylineLength taxi pts1200) ∧
      ∃ pos j, advanceAlongRoute taxi pts1200 0 300 = some (pos, j, 300) ∧
        ((pts1200.length = 1 ∧ pts1200[0]? = some pos) ∨
         (∃ a b t, pts1200[j]? = some a ∧ pts1200[j + 1]? = some b ∧ pos = lerp a b t ∧
           0 ≤ t ∧ t ≤ 1 ∧ (taxi a b = 0 → t = 0) ∧
           t = (if 0 < taxi a b then (300 - prefixLen taxi pts1200 j) / taxi a b else 0) ∧
           prefixLen taxi pts1200 j ≤ 300 ∧ 300 ≤ prefixLen taxi pts1200 (j + 1))) :=
  ⟨taxi_nonneg, by simp [pts1200], by norm_num,
    by norm_num [polylineLength, suffixLen, chainLen, pts1200, taxi],
    c6_traversal_exactness taxi pts1200 300 taxi_nonneg (by simp [pts1200]) (by norm_num)
      (by norm_num [polylineLength, suffixLen, chainLen, pts1200, taxi])⟩

/-- C7: when the target distance strictly exceeds the polyline length
remaining from the (valid) start index, `_advance_along_route` returns the
last route point, the last valid index `len(points) - 1`, and a distance
traveled equal to the true remaining polyline length (which is less than
the target). -/
theorem c7_traversal_overshoot (gd : Point → Point → ℚ) (pts : List Point)
    (start : ℕ) (d : ℚ) (p : Point)
    (hgd : ∀ a b, 0 ≤ gd a b) (hidx : pts[start]? = some p)
    (hgt : suffixLen gd pts start < d) :
    ∃ lastp, pts.getLast? = some lastp ∧
      advanceAlongRoute gd pts start d =
        some (lastp, pts.length - 1, suffixLen gd pts start) := by
  have hlt : start < pts.length := by
    by_contra hge
    rw [List.getElem?_eq_none (le_of_not_lt hge)] at hidx
    exact Option.noConfusion hidx
  have hp : pts[start] = p := by
    have h2 := List.getElem?_eq_getElem hlt
    rw [h2] at hidx
    exact Option.some_injective _ hidx
  have hdrop : pts.drop start = p :: pts.drop (start + 1) := by
    rw [List.drop_eq_getElem_cons hlt, hp]
  have hsfx := suffixLen_eq gd hidx
  have hover : 0 + chainLen gd p (pts.drop (start + 1)) < d := by
    rw [zero_add, ← hsfx]
    exact hgt
  have hgo := advanceGo_overshoot hgd d (pts.drop (start + 1)) p start 0 hover
  refine ⟨(p :: pts.drop (start + 1)).getLast (List.cons_ne_nil _ _), ?_, ?_⟩
  · rw [← getLast?_drop_of_lt pts start hlt, hdrop]
    exact List.getLast?_eq_getLast _ _
  · simp only [advanceAlongRoute, hidx, hgo, zero_add, ← hsfx]
    have hlen : start + (pts.drop (start + 1)).length = pts.length - 1 := by
      rw [List.length_drop]
      omega
    rw [hlen]

/-- C7 (witness): advancing 2000 miles along the 1200-mile segment. -/
theorem c7_witness :
    (∀ a b, 0 ≤ taxi a b) ∧ pts1200[0]? = some ((0 : ℚ), (0 : ℚ)) ∧
      suffixLen taxi pts1200 0 < 2000 ∧
      ∃ lastp, pts1200.getLast? = some lastp ∧
        advanceAlongRoute taxi pts1200 0 2000 =
          some (lastp, pts1200.length - 1, suffixLen taxi pts1200 0) :=
  ⟨taxi_nonneg, by simp [pts1200],
    by norm_num [suffixLen, chainLen, pts1200, taxi],
    c7_traversal_overshoot taxi pts1200 0 2000 ((0 : ℚ), (0 : ℚ)) taxi_nonneg
      (by simp [pts1200]) (by norm_num [suffixLen, chainLen, pts1200, taxi])⟩

/-- C8: when a refuel is required (trip unfinished and tank below the
100-mile buffer after the advance) and the nearby-station query returns no
stations, the iteration still succeeds (never an error): it emits a fuel
stop named "Estimated Station" carrying an observable note, positioned at
the current interpolated point, whose displayed price is the rounded mean
price over all stations found near the route (`avgPrice` falls back to the
fixed default 3.5 when that set is empty), whose cost uses the exact mean,
and the tank resets to the full maximum range. -/
theorem c8_estimated_fallback (gd : Point → Point → ℚ) (coords : List (String × Point))
    (stations : List Station) (pts : List Point) (total : ℚ) (s : LoopState)
    (pos : Point) (j : ℕ) (d : ℚ)
    (hadv : advanceAlongRoute gd pts s.route_index
        (min s.remaining_range (total - s.distance_covered)) = some (pos, j, d))
    (hcov : s.distance_covered + d < total) (hbuf : s.remaining_range - d < 100)
    (hnear : findNearbyStations gd coords stations pos = []) :
    ∃ stp s2, planStep gd coords stations pts total s = Except.ok s2 ∧
      s2.fuel_stops = s.fuel_stops ++ [stp] ∧
      stp.station_name = ("Estimated Station") ∧
      stp.note = some ("No stations found nearby, using estimated price") ∧
      stp.loc_lat = pos.1 ∧ stp.loc_lon = pos.2 ∧
      stp.price_per_gallon = round2 (avgPrice stations) ∧
      stp.gallons_purchased = round2 ((max_range_miles - (s.remaining_range - d)) / mpg) ∧
      s2.remaining_range = max_range_miles ∧
      s2.total_fuel_cost = s.total_fuel_cost +
        ((max_range_miles - (s.remaining_range - d)) / mpg) * avgPrice stations := by
  simp only [planStep]
  rw [hadv]
  dsimp only
  rw [if_pos ⟨hcov, hbuf⟩, hnear]
  dsimp only [pythonMinByPrice]
  exact ⟨_, _, rfl, rfl, rfl, rfl, rfl, rfl, rfl, rfl, rfl, rfl⟩

/-- C8 (witness): the first refuel of the 1200-mile run with no stations. -/
theorem c8_witness :
    advanceAlongRoute taxi pts1200 initState.route_index
        (min initState.remaining_range (1200 - initState.distance_covered)) =
      some (((500 : ℚ), (0 : ℚ)), 0, 500) ∧
    initState.distance_covered + 500 < 1200 ∧
    initState.remaining_range - 500 < 100 ∧
    findNearbyStations taxi [] [] ((500 : ℚ), (0 : ℚ)) = [] ∧
    ∃ stp s2, planStep taxi [] [] pts1200 1200 initState = Except.ok s2 ∧
      s2.fuel_stops = initState.fuel_stops ++ [stp] ∧
      stp.station_name = ("Estimated Station") ∧
      stp.note = some ("No stations found nearby, using estimated price") ∧
      stp.loc_lat = 500 ∧ stp.loc_lon = 0 ∧
      stp.price_per_gallon = round2 (avgPrice []) ∧
      stp.gallons_purchased =
        round2 ((max_range_miles - (initState.remaining_range - 500)) / mpg) ∧
      s2.remaining_range = max_range_miles ∧
      s2.total_fuel_cost = initState.total_fuel_cost +
        ((max_range_miles - (initState.remaining_range - 500)) / mpg) * avgPrice [] := by
  have hadv : advanceAlongRoute taxi pts1200 initState.route_index
      (min initState.remaining_range (1200 - initState.distance_covered)) =
      some (((500 : ℚ), (0 : ℚ)), 0, 500) := by
    norm_num [advanceAlongRoute, advanceGo, initState, max_range_miles, taxi, pts1200, lerp]
  have hnear : findNearbyStations taxi [] [] ((500 : ℚ), (0 : ℚ)) = [] := by
    simp [findNearbyStations, sortByPrice]
  exact ⟨hadv, by norm_num [initState], by norm_num [initState, max_range_miles], hnear,
    c8_estimated_fallback taxi [] [] pts1200 1200 initState ((500 : ℚ), (0 : ℚ)) 0 500
      hadv (by norm_num [initState]) (by norm_num [initState, max_range_miles]) hnear⟩

/-- C9 (counterexample): on a 1200-mile trip the two refuel stops are at
exactly 500 and 1000 miles from the start (where the tank runs empty:
the loop advances a full tank's range, `min(remainingRange, remaining
trip)`, before checking the buffer), not at approximately 400 and 800
miles (where remaining range would drop below the 100-mile buffer); each
recorded stop distance is at least 100 miles away from both claimed
locations.  Stop count (2) and total gallons (120.0) do hold. -/
theorem c9_counterexample :
    findOptimalFuelStops taxi [] [] pts1200 1200 3 = some (Except.ok plan1200) ∧
    plan1200.fuel_stops.map FuelStop.distance_from_start = [500, 1000] ∧
    plan1200.number_of_stops = 2 ∧ plan1200.total_gallons = 120 ∧
    ∀ dd ∈ plan1200.fuel_stops.map FuelStop.distance_from_start,
      100 ≤ |dd - 400| ∧ 100 ≤ |dd - 800| := by
  refine ⟨run1200_eq, by norm_num [plan1200, estStop1200], by norm_num [plan1200],
    by norm_num [plan1200], ?_⟩
  intro dd hdd
  simp only [plan1200, estStop1200, List.map_cons, List.map_nil, List.mem_cons,
    List.mem_singleton] at hdd
  rcases hdd with h | h | h
  · subst h
    norm_num
  · subst h
    norm_num
  · simp at h

/-- C9 (amended): for any route of total distance 1200 miles whose
polyline is long enough to cover the trip (max range 500, 10 mpg, 100-mile
buffer), `find_optimal_fuel_stops` produces exactly 2 refuel stops, at
exactly 500 and 1000 miles from the start (the points where the tank runs
empty after advancing a full tank's range), and reports total gallons
equal to 120.0. -/
theorem c9_example_route (gd : Point → Point → ℚ) (coords : List (String × Point))
    (raws : List RawStation) (pts : List Point)
    (hgd : ∀ a b, 0 ≤ gd a b) (hne : pts ≠ [])
    (hcover : (1200 : ℚ) ≤ polylineLength gd pts) :
    ∃ plan, findOptimalFuelStops gd coords raws pts 1200 3 = some (Except.ok plan) ∧
      plan.number_of_stops = 2 ∧
      plan.fuel_stops.map FuelStop.distance_from_start = [500, 1000] ∧
      plan.events.map Event.covered = [500, 1000] ∧
      plan.total_gallons = 120 := by
  obtain ⟨p, hp⟩ : ∃ p, pts[0]? = some p := by
    cases pts with
    | nil => exact absurd rfl hne
    | cons a l => exact ⟨a, by simp⟩
  have hp0 : pts[initState.route_index]? = some p := hp
  have hsuf0 : (1200 : ℚ) - initState.distance_covered ≤
      suffixLen gd pts initState.route_index := by
    show (1200 : ℚ) - 0 ≤ suffixLen gd pts 0
    rw [sub_zero]
    exact hcover
  obtain ⟨s1, hps1, ⟨q1, hq1⟩, hsuf1, hcov1, hcase1⟩ :=
    planStep_full gd coords (getStationsNearRoute gd coords raws pts) pts 1200 hgd
      initState hp0 hsuf0 (by norm_num [initState]) rfl
  rcases hcase1 with ⟨hA, -, -, -⟩ | ⟨-, hcov1e, hrem1, ⟨e1, hev1, hev1c, hev1g⟩,
      ⟨st1, hst1, hst1d, hst1g⟩⟩
  · exact absurd hA (by norm_num [initState])
  have hcov1v : s1.distance_covered = 500 := by
    rw [hcov1e]
    norm_num [initState]
  obtain ⟨s2, hps2, ⟨q2, hq2⟩, hsuf2, hcov2, hcase2⟩ :=
    planStep_full gd coords (getStationsNearRoute gd coords raws pts) pts 1200 hgd
      s1 hq1 hsuf1 (by rw [hcov1v]; norm_num) hrem1
  rcases hcase2 with ⟨hA, -, -, -⟩ | ⟨-, hcov2e, hrem2, ⟨e2, hev2, hev2c, hev2g⟩,
      ⟨st2, hst2, hst2d, hst2g⟩⟩
  · rw [hcov1v] at hA
    exact absurd hA (by norm_num)
  have hcov2v : s2.distance_covered = 1000 := by
    rw [hcov2e, hcov1v]
    norm_num
  obtain ⟨s3, hps3, ⟨q3, hq3⟩, hsuf3, hcov3, hcase3⟩ :=
    planStep_full gd coords (getStationsNearRoute gd coords raws pts) pts 1200 hgd
      s2 hq2 hsuf2 (by rw [hcov2v]; norm_num) hrem2
  rcases hcase3 with ⟨-, hcov3e, hev3, hst3⟩ | ⟨hB, -, -, -, -⟩
  · -- final leg
    have hrl : runLoop gd coords (getStationsNearRoute gd coords raws pts) pts 1200 3
        initState = some (Except.ok s3) := by
      rw [show (3 : ℕ) = 2 + 1 from rfl,
        runLoop_step (by norm_num [initState]) hps1 2,
        show (2 : ℕ) = 1 + 1 from rfl,
        runLoop_step (by rw [hcov1v]; norm_num) hps2 1,
        show (1 : ℕ) = 0 + 1 from rfl,
        runLoop_step (by rw [hcov2v]; norm_num) hps3 0]
      unfold runLoop
      rw [if_pos (le_of_eq hcov3e.symm)]
    obtain ⟨pp, rest, rfl⟩ : ∃ pp rest, pts = pp :: rest := by
      cases pts with
      | nil => exact absurd rfl hne
      | cons pp rest => exact ⟨pp, rest, rfl⟩
    refine ⟨{ fuel_stops := s3.fuel_stops, total_fuel_cost := round2 s3.total_fuel_cost,
              total_gallons := round2 (1200 / mpg), number_of_stops := s3.fuel_stops.length,
              vehicle_mpg := mpg, vehicle_range := max_range_miles, events := s3.events },
      ?_, ?_, ?_, ?_, ?_⟩
    · simp only [findOptimalFuelStops]
      rw [hrl]
    · dsimp only
      rw [hst3, hst2, hst1]
      norm_num [initState]
    · dsimp only
      rw [hst3, hst2, hst1]
      simp only [initState, List.nil_append, List.map_append, List.map_cons, List.map_nil,
        List.singleton_append]
      rw [hst1d, hst2d, hcov1v]
      norm_num [initState, round2, round_eq]
    · dsimp only
      rw [hev3, hev2, hev1]
      simp only [initState, List.nil_append, List.map_append, List.map_cons, List.map_nil,
        List.singleton_append]
      rw [hev1c, hev2c, hcov1v]
      norm_num [initState]
    · dsimp only
      norm_num [mpg, round2, round_eq]
  · rw [hcov2v] at hB
    exact absurd hB (by norm_num)

/-- C9 (witness): the concrete 1200-mile straight route. -/
theorem c9_witness :
    (∀ a b, 0 ≤ taxi a b) ∧ pts1200 ≠ [] ∧
      ((1200 : ℚ) ≤ polylineLength taxi pts1200) ∧
      ∃ plan, findOptimalFuelStops taxi [] [] pts1200 1200 3 = some (Except.ok plan) ∧
        plan.number_of_stops = 2 ∧
        plan.fuel_stops.map FuelStop.distance_from_start = [500, 1000] ∧
        plan.events.map Event.covered = [500, 1000] ∧
        plan.total_gallons = 120 :=
  ⟨taxi_nonneg, by simp [pts1200],
    by norm_num [polylineLength, suffixLen, chainLen, pts1200, taxi],
    c9_example_route taxi [] [] pts1200 taxi_nonneg (by simp [pts1200])
      (by norm_num [polylineLength, suffixLen, chainLen, pts1200, taxi])⟩

/-- A row parses exactly when all four required cells are present (and the
price cell parsed). -/
theorem parseRow_isSome (r : RawRow) : (parseRow r).isSome = true ↔
    r.truckstopName.isSome = true ∧ r.city.isSome = true ∧ r.state.isSome = true ∧
      r.retailPrice.isSome = true := by
  obtain ⟨n, c, s, a, p⟩ := r
  cases n <;> cases c <;> cases s <;> cases p <;> simp [parseRow]

/-- The whole-file parse succeeds exactly when every row parses. -/
theorem parseRows_isSome : ∀ rows : List RawRow,
    (parseRows rows).isSome = true ↔ ∀ r ∈ rows, (parseRow r).isSome = true := by
  intro rows
  induction rows with
  | nil => simp [parseRows]
  | cons r rest ih =>
    simp only [parseRows]
    cases hr : parseRow r with
    | none =>
      simp only [Option.isSome_none, Bool.false_eq_true, false_iff, not_forall]
      exact ⟨r, List.mem_cons_self r rest, by simp [hr]⟩
    | some v =>
      cases hrest : parseRows rest with
      | none =>
        rw [hrest] at ih
        simp only [Option.isSome_none, Bool.false_eq_true, false_iff, not_forall] at ih ⊢
        obtain ⟨rr, hrr, hbad⟩ := ih
        exact ⟨rr, List.mem_cons_of_mem r hrr, hbad⟩
      | some sts =>
        rw [hrest] at ih
        simp only [Option.isSome_some, true_iff] at ih
        simp only [Option.isSome_some, true_iff]
        intro rr hrr
        rcases List.mem_cons.mp hrr with h | h
        · subst h
          simp [hr]
        · exact ih rr h

/-- C4 (counterexample): a row whose name, city and region are all empty
and whose price parses to the non-positive value -1 loads successfully:
`_load_raw_stations_data` performs no emptiness or positivity validation,
contradicting the claim that such a load must fail. -/
theorem c4_counterexample :
    loadRawStationsData (some [⟨some (""), some (""), some (""), none, some (-1)⟩]) =
      Except.ok [⟨"", "", "", "", -1⟩] ∧
    ¬ ((0 : ℚ) < -1) := by
  constructor
  · decide
  · norm_num

/-- C4 (amended): loading the raw station table fails with the
data-source error exactly when the table is missing/unreadable or some row
lacks one of the required cells `Truckstop Name`, `City`, `State`,
`Retail Price` (a price on which `float` fails counts as lacking); the
values themselves are not validated, so records of a successful load may
have empty name/city/region or a non-positive price. -/
theorem c4_load_failure (file : Option (List RawRow)) :
    (∃ l, loadRawStationsData file = Except.ok l) ↔
      ∃ rows, file = some rows ∧ ∀ r ∈ rows,
        r.truckstopName.isSome = true ∧ r.city.isSome = true ∧
          r.state.isSome = true ∧ r.retailPrice.isSome = true := by
  cases file with
  | none => simp [loadRawStationsData]
  | some rows =>
    simp only [loadRawStationsData, Option.some.injEq]
    constructor
    · rintro ⟨l, hl⟩
      refine ⟨rows, rfl, ?_⟩
      intro r hr
      rw [← parseRow_isSome]
      cases hm : parseRows rows with
      | none =>
        rw [hm] at hl
        exact Except.noConfusion hl
      | some sts =>
        have := (parseRows_isSome rows).mp (by rw [hm]; rfl)
        exact this r hr
    · rintro ⟨rows2, hr2, hall⟩
      have hrows : rows2 = rows := hr2.symm
      subst hrows
      have : (parseRows rows2).isSome = true := by
        rw [parseRows_isSome]
        intro r hr
        rw [parseRow_isSome]
        exact hall r hr
      cases hm : parseRows rows2 with
      | none =>
        rw [hm] at this
        simp at this
      | some sts =>
        exact ⟨sts, rfl⟩

/-! ## Deduplication lemmas (for C5) -/

/-- Effect of one dict insert on a lookup. -/
theorem lookupKey_dedupInsert (l : List (Key × Station)) (k0 : Key) (e : Station) (k : Key) :
    lookupKey k (dedupInsert l k0 e) =
      if k = k0 then some (mergeSt (lookupKey k l) e) else lookupKey k l := by
  induction l with
  | nil =>
    by_cases h : k = k0
    · subst h
      simp [dedupInsert, lookupKey, mergeSt]
    · simp only [dedupInsert, lookupKey]
      rw [if_neg (fun hh => h hh.symm), if_neg h]
  | cons head rest ih =>
    obtain ⟨k2, e2⟩ := head
    by_cases h02 : k0 = k2
    · subst h02
      simp only [dedupInsert, if_pos rfl]
      by_cases hk : k = k0
      · subst hk
        by_cases hp : e.price < e2.price
        · rw [if_pos hp]
          simp [lookupKey, mergeSt, hp]
        · rw [if_neg hp]
          simp [lookupKey, mergeSt, hp]
      · have hk2 : ¬ k0 = k := fun hh => hk hh.symm
        by_cases hp : e.price < e2.price
        · rw [if_pos hp]
          simp [lookupKey, hk, hk2]
        · rw [if_neg hp]
          simp [lookupKey, hk, hk2]
    · simp only [dedupInsert, if_neg h02]
      by_cases hk2 : k2 = k
      · subst hk2
        have hkk0 : ¬ k2 = k0 := fun hh => h02 hh.symm
        simp [lookupKey, hkk0]
      · simp only [lookupKey, if_neg hk2]
        rw [ih]

/-- Effect of one dict insert on the key sequence. -/
theorem keys_dedupInsert (l : List (Key × Station)) (k : Key) (e : Station) :
    (dedupInsert l k e).map Prod.fst =
      if k ∈ l.map Prod.fst then l.map Prod.fst else l.map Prod.fst ++ [k] := by
  induction l with
  | nil => simp [dedupInsert]
  | cons head rest ih =>
    obtain ⟨k2, e2⟩ := head
    by_cases h02 : k = k2
    · subst h02
      simp only [dedupInsert, if_pos rfl]
      by_cases hp : e.price < e2.price <;> simp [hp]
    · simp only [dedupInsert, if_neg h02, List.map_cons, ih]
      by_cases hmem : k ∈ rest.map Prod.fst
      · rw [if_pos hmem, if_pos (by simp [hmem])]
      · rw [if_neg hmem, if_neg (by simp [hmem, h02]), List.cons_append]

/-- Dict inserts keep the keys distinct. -/
theorem nodup_keys_dedupInsert {l : List (Key × Station)} (k : Key) (e : Station)
    (h : (l.map Prod.fst).Nodup) : ((dedupInsert l k e).map Prod.fst).Nodup := by
  rw [keys_dedupInsert]
  by_cases hmem : k ∈ l.map Prod.fst
  · rw [if_pos hmem]
    exact h
  · rw [if_neg hmem]
    simp only [List.nodup_append, List.nodup_cons, List.not_mem_nil, not_false_iff,
      List.nodup_nil, and_true, true_and]
    simp [h, hmem]

/-- Every pair of the inserted dict is an old pair or the inserted pair. -/
theorem mem_dedupInsert {l : List (Key × Station)} {k : Key} {e : Station}
    {pr : Key × Station} (h : pr ∈ dedupInsert l k e) : pr ∈ l ∨ pr = (k, e) := by
  induction l with
  | nil =>
    simp only [dedupInsert, List.mem_singleton] at h
    exact Or.inr h
  | cons head rest ih =>
    obtain ⟨k2, e2⟩ := head
    by_cases h02 : k = k2
    · subst h02
      simp only [dedupInsert, if_pos rfl] at h
      by_cases hp : e.price < e2.price
      · rw [if_pos hp] at h
        rcases List.mem_cons.mp h with h | h
        · exact Or.inr h
        · exact Or.inl (List.mem_cons_of_mem _ h)
      · rw [if_neg hp] at h
        rcases List.mem_cons.mp h with h | h
        · exact Or.inl (by simp [h])
        · exact Or.inl (List.mem_cons_of_mem _ h)
    · simp only [dedupInsert, if_neg h02] at h
      rcases List.mem_cons.mp h with h | h
      · exact Or.inl (by simp [h])
      · rcases ih h with h | h
        · exact Or.inl (List.mem_cons_of_mem _ h)
        · exact Or.inr h

/-- A kept entry is keyed by the record's dedup key, and the station built
for it answers to that same key. -/
theorem keptEntry_some {coords : List (String × Point)} {near : List String}
    {r : RawStation} {k : Key} {e : Station}
    (h : keptEntry coords near r = some (k, e)) :
    k = rawKey r ∧ entryKey e = rawKey r := by
  unfold keptEntry at h
  cases hc : lookupCoord (pyStrip (pyUpper r.state)) coords with
  | none =>
    rw [hc] at h
    exact Option.noConfusion h
  | some c =>
    rw [hc] at h
    dsimp only at h
    by_cases hmem : pyStrip (pyUpper r.state) ∈ near
    · rw [if_pos hmem] at h
      simp only [Option.some.injEq, Prod.mk.injEq] at h
      refine ⟨h.1.symm, ?_⟩
      rw [← h.2]
      simp [entryKey, stationEntry, rawKey]
    · rw [if_neg hmem] at h
      exact Option.noConfusion h

/-- The dict lookup after processing all records merges the per-key group
entries in processing order. -/
theorem lookupKey_dedupFold_aux (coords : List (String × Point)) (near : List String)
    (k : Key) :
    ∀ (rs : List RawStation) (acc : List (Key × Station)),
      lookupKey k (rs.foldl (fun a r =>
        match keptEntry coords near r with
        | none => a
        | some (k2, e) => dedupInsert a k2 e) acc) =
      (groupEntries coords near k rs).foldl (fun b e => some (mergeSt b e))
        (lookupKey k acc) := by
  intro rs
  induction rs with
  | nil =>
    intro acc
    simp [groupEntries]
  | cons r rest ih =>
    intro acc
    simp only [List.foldl_cons]
    cases hke : keptEntry coords near r with
    | none =>
      rw [ih]
      simp [groupEntries, List.filterMap_cons, hke]
    | some pr =>
      obtain ⟨k2, e⟩ := pr
      rw [ih]
      by_cases hk : k2 = k
      · subst hk
        have hgrp : groupEntries coords near k2 (r :: rest) =
            e :: groupEntries coords near k2 rest := by
          simp [groupEntries, List.filterMap_cons, hke]
        rw [hgrp, List.foldl_cons, lookupKey_dedupInsert, if_pos rfl]
      · have hgrp : groupEntries coords near k (r :: rest) =
            groupEntries coords near k rest := by
          simp [groupEntries, List.filterMap_cons, hke, hk]
        rw [hgrp, lookupKey_dedupInsert, if_neg (fun hh => hk hh.symm)]

/-- The keys of the built dict are distinct. -/
theorem nodup_keys_dedupFold (coords : List (String × Point)) (near : List String)
    (raws : List RawStation) :
    ((dedupFold coords near raws).map Prod.fst).Nodup := by
  unfold dedupFold
  suffices h : ∀ (rs : List RawStation) (acc : List (Key × Station)),
      (acc.map Prod.fst).Nodup →
      ((rs.foldl (fun a r =>
        match keptEntry coords near r with
        | none => a
        | some (k2, e) => dedupInsert a k2 e) acc).map Prod.fst).Nodup by
    exact h raws [] (by simp)
  intro rs
  induction rs with
  | nil => intro acc hacc; simpa using hacc
  | cons r rest ih =>
    intro acc hacc
    simp only [List.foldl_cons]
    cases hke : keptEntry coords near r with
    | none => exact ih acc hacc
    | some pr =>
      obtain ⟨k2, e⟩ := pr
      exact ih _ (nodup_keys_dedupInsert k2 e hacc)

/-- Every pair of the built dict has a value answering to its key. -/
theorem entryKey_dedupFold (coords : List (String × Point)) (near : List String)
    (raws : List RawStation) :
    ∀ pr ∈ dedupFold coords near raws, entryKey pr.2 = pr.1 := by
  unfold dedupFold
  suffices h : ∀ (rs : List RawStation) (acc : List (Key × Station)),
      (∀ pr ∈ acc, entryKey pr.2 = pr.1) →
      ∀ pr ∈ rs.foldl (fun a r =>
        match keptEntry coords near r with
        | none => a
        | some (k2, e) => dedupInsert a k2 e) acc, entryKey pr.2 = pr.1 by
    exact h raws [] (by simp)
  intro rs
  induction rs with
  | nil => intro acc hacc; simpa using hacc
  | cons r rest ih =>
    intro acc hacc
    simp only [List.foldl_cons]
    cases hke : keptEntry coords near r with
    | none => exact ih acc hacc
    | some pr0 =>
      obtain ⟨k2, e⟩ := pr0
      refine ih _ ?_
      intro pr hpr
      rcases mem_dedupInsert hpr with h | h
      · exact hacc pr h
      · subst h
        obtain ⟨hk, he⟩ := keptEntry_some hke
        rw [he, hk]

/-- Folding the price merge over a nonempty group returns a member price
that is minimal. -/
theorem foldl_mergeOpt_spec :
    ∀ (l : List Station) (b : Station),
      ∃ m, l.foldl (fun acc e => some (mergeSt acc e)) (some b) = some m ∧
        m.price ≤ b.price ∧ (∀ e ∈ l, m.price ≤ e.price) ∧
        (m.price = b.price ∨ m.price ∈ l.map Station.price) := by
  intro l
  induction l with
  | nil =>
    intro b
    exact ⟨b, rfl, le_refl _, by simp, Or.inl rfl⟩
  | cons e rest ih =>
    intro b
    simp only [List.foldl_cons]
    have hm : mergeSt (some b) e = if e.price < b.price then e else b := rfl
    obtain ⟨m, hfold, hle, hall, hmem⟩ := ih (mergeSt (some b) e)
    refine ⟨m, hfold, ?_, ?_, ?_⟩
    · rw [hm] at hle
      by_cases hp : e.price < b.price
      · rw [if_pos hp] at hle
        linarith
      · rw [if_neg hp] at hle
        exact hle
    · intro e2 he2
      rcases List.mem_cons.mp he2 with h | h
      · subst h
        rw [hm] at hle
        by_cases hp : e2.price < b.price
        · rw [if_pos hp] at hle
          exact hle
        · rw [if_neg hp] at hle
          linarith [not_lt.mp hp]
      · exact hall e2 h
    · rcases hmem with h | h
      · rw [hm] at h
        by_cases hp : e.price < b.price
        · rw [if_pos hp] at h
          exact Or.inr (by simp [h])
        · rw [if_neg hp] at h
          exact Or.inl h
      · exact Or.inr (by simp [h])

/-- With distinct keys, the pairs filtered at a looked-up key form exactly
the singleton of the stored pair. -/
theorem filter_eq_singleton_of_lookup :
    ∀ (l : List (Key × Station)) (k : Key) (e : Station),
      (l.map Prod.fst).Nodup → lookupKey k l = some e →
      l.filter (fun pr => decide (pr.1 = k)) = [(k, e)] := by
  intro l
  induction l with
  | nil =>
    intro k e _ hlk
    exact Option.noConfusion hlk
  | cons head rest ih =>
    intro k e hnd hlk
    obtain ⟨k2, e2⟩ := head
    simp only [List.map_cons, List.nodup_cons] at hnd
    by_cases hk : k2 = k
    · subst hk
      unfold lookupKey at hlk
      rw [if_pos rfl] at hlk
      simp only [Option.some.injEq] at hlk
      subst hlk
      have hrest : rest.filter (fun pr => decide (pr.1 = k2)) = [] := by
        rw [List.filter_eq_nil_iff]
        intro pr hpr
        simp only [decide_eq_true_eq]
        intro hpk
        exact hnd.1 (by rw [← hpk]; exact List.mem_map_of_mem Prod.fst hpr)
      simp [List.filter_cons, hrest]
    · simp only [lookupKey, if_neg hk] at hlk
      have := ih k e hnd.2 hlk
      simp [List.filter_cons, hk, this]

/-- When the key's normalized region passes the near-route filter and has a
known centroid, the group entries are exactly the stations built from the
raw records sharing the key, in order. -/
theorem groupEntries_of_filter (coords : List (String × Point)) (near : List String)
    (k : Key) (raws : List RawStation) (hnear : k.2.2 ∈ near) (c : Point)
    (hcoord : lookupCoord k.2.2 coords = some c) :
    groupEntries coords near k raws =
      (raws.filter (fun r => decide (rawKey r = k))).map
        (fun r => stationEntry r k.2.2 c) := by
  induction raws with
  | nil => rfl
  | cons r rest ih =>
    by_cases hk : rawKey r = k
    · have hst : pyStrip (pyUpper r.state) = k.2.2 := by
        rw [← hk]
        rfl
      have hke : keptEntry coords near r =
          some (rawKey r, stationEntry r (pyStrip (pyUpper r.state)) c) := by
        unfold keptEntry
        rw [hst, hcoord]
        dsimp only
        rw [if_pos hnear, ← hst]
      have hgrp : groupEntries coords near k (r :: rest) =
          stationEntry r (pyStrip (pyUpper r.state)) c :: groupEntries coords near k rest := by
        simp [groupEntries, List.filterMap_cons, hke, hk]
      rw [hgrp, ih, List.filter_cons, if_pos (by simp [hk]), List.map_cons, hst]
    · have hfil : (r :: rest).filter (fun r => decide (rawKey r = k)) =
          rest.filter (fun r => decide (rawKey r = k)) := by
        rw [List.filter_cons, if_neg (by simp [hk])]
      cases hke : keptEntry coords near r with
      | none =>
        have hgrp : groupEntries coords near k (r :: rest) =
            groupEntries coords near k rest := by
          simp [groupEntries, List.filterMap_cons, hke]
        rw [hgrp, ih, hfil]
      | some pr =>
        obtain ⟨pk, pe⟩ := pr
        obtain ⟨hk1, -⟩ := keptEntry_some hke
        have hpk : ¬ pk = k := by
          rw [hk1]
          exact hk
        have hgrp : groupEntries coords near k (r :: rest) =
            groupEntries coords near k rest := by
          simp [groupEntries, List.filterMap_cons, hke, hpk]
        rw [hgrp, ih, hfil]

/-- C5: for every dedup key whose case/whitespace-normalized region passes
the near-route filter and has a centroid in the region table, if at least
one raw record carries the key then the station list returned by
`_get_stations_near_route` contains exactly one station answering to that
key, and its price is the minimum price among all raw records sharing the
key (so for a duplicated key with prices p1 < p2 the single survivor has
price p1). -/
theorem c5_dedup_min_price (gd : Point → Point → ℚ) (coords : List (String × Point))
    (raws : List RawStation) (pts : List Point) (k : Key) (c : Point)
    (hgrp : raws.filter (fun r => decide (rawKey r = k)) ≠ [])
    (hnear : k.2.2 ∈ statesNearRoute gd coords pts)
    (hcoord : lookupCoord k.2.2 coords = some c) :
    ∃ st, (getStationsNearRoute gd coords raws pts).filter
        (fun e => decide (entryKey e = k)) = [st] ∧
      st.price ∈ (raws.filter (fun r => decide (rawKey r = k))).map RawStation.price ∧
      ∀ r ∈ raws.filter (fun r => decide (rawKey r = k)), st.price ≤ r.price := by
  have hge := groupEntries_of_filter coords (statesNearRoute gd coords pts) k raws hnear
    c hcoord
  obtain ⟨g, grest, hcons⟩ :
      ∃ g grest, raws.filter (fun r => decide (rawKey r = k)) = g :: grest := by
    cases hh : raws.filter (fun r => decide (rawKey r = k)) with
    | nil => exact absurd hh hgrp
    | cons g grest => exact ⟨g, grest, rfl⟩
  have hlk : lookupKey k (dedupFold coords (statesNearRoute gd coords pts) raws) =
      (groupEntries coords (statesNearRoute gd coords pts) k raws).foldl
        (fun b e => some (mergeSt b e)) none :=
    lookupKey_dedupFold_aux coords (statesNearRoute gd coords pts) k raws []
  rw [hge, hcons, List.map_cons, List.foldl_cons] at hlk
  obtain ⟨m, hm, hle, hall, hmem⟩ :=
    foldl_mergeOpt_spec (grest.map (fun r => stationEntry r k.2.2 c))
      (stationEntry g k.2.2 c)
  have hlk2 : lookupKey k (dedupFold coords (statesNearRoute gd coords pts) raws) =
      some m := by
    rw [hlk]
    exact hm
  have hnd := nodup_keys_dedupFold coords (statesNearRoute gd coords pts) raws
  have hfil := filter_eq_singleton_of_lookup _ k m hnd hlk2
  have hpush : (getStationsNearRoute gd coords raws pts).filter
      (fun e => decide (entryKey e = k)) = [m] := by
    unfold getStationsNearRoute
    rw [List.filter_map]
    have hcongr : (dedupFold coords (statesNearRoute gd coords pts) raws).filter
          ((fun e => decide (entryKey e = k)) ∘ Prod.snd) =
        (dedupFold coords (statesNearRoute gd coords pts) raws).filter
          (fun pr => decide (pr.1 = k)) := by
      refine List.filter_congr ?_
      intro pr hpr
      have := entryKey_dedupFold coords (statesNearRoute gd coords pts) raws pr hpr
      simp [Function.comp, this]
    rw [hcongr, hfil]
    rfl
  have hmapmap : (grest.map (fun r => stationEntry r k.2.2 c)).map Station.price
      = grest.map RawStation.price := by
    simp [List.map_map, Function.comp, stationEntry]
  refine ⟨m, hpush, ?_, ?_⟩
  · rw [hcons, List.map_cons]
    rcases hmem with h | h
    · rw [h]
      exact List.mem_cons_self _ _
    · exact List.mem_cons_of_mem _ (hmapmap ▸ h)
  · intro r hr
    rw [hcons] at hr
    rcases List.mem_cons.mp hr with h | h
    · subst h
      exact hle
    · exact hall (stationEntry r k.2.2 c) (List.mem_map_of_mem _ h)

/-- C5 (witness): two records differing only in raw-state spelling and
price collapse to one station at the lower price. -/
theorem c5_witness :
    (([⟨("A"), ("X"), ("tx"), (""), 4⟩, ⟨("A"), ("X"), (" TX "), (""), 3⟩]
        : List RawStation).filter
      (fun r => decide (rawKey r = (("A"), ("X"), ("TX")))) ≠ []) ∧
    (((("A"), ("X"), ("TX")) : Key).2.2 ∈
      statesNearRoute taxi [(("TX"), ((0 : ℚ), (0 : ℚ)))] [((0 : ℚ), (0 : ℚ))]) ∧
    (lookupCoord ((("A"), ("X"), ("TX")) : Key).2.2 [(("TX"), ((0 : ℚ), (0 : ℚ)))] =
      some (0, 0)) ∧
    (∃ st, ((getStationsNearRoute taxi [(("TX"), ((0 : ℚ), (0 : ℚ)))]
        [⟨("A"), ("X"), ("tx"), (""), 4⟩, ⟨("A"), ("X"), (" TX "), (""), 3⟩]
        [((0 : ℚ), (0 : ℚ))]).filter
        (fun e => decide (entryKey e = (("A"), ("X"), ("TX"))))) = [st] ∧
      (st.price ∈ (([⟨("A"), ("X"), ("tx"), (""), 4⟩, ⟨("A"), ("X"), (" TX "), (""), 3⟩]
          : List RawStation).filter
        (fun r => decide (rawKey r = (("A"), ("X"), ("TX"))))).map RawStation.price) ∧
      (∀ r ∈ ([⟨("A"), ("X"), ("tx"), (""), 4⟩, ⟨("A"), ("X"), (" TX "), (""), 3⟩]
          : List RawStation).filter
        (fun r => decide (rawKey r = (("A"), ("X"), ("TX")))), st.price ≤ r.price)) := by
  have hgrp : ([⟨("A"), ("X"), ("tx"), (""), 4⟩, ⟨("A"), ("X"), (" TX "), (""), 3⟩]
      : List RawStation).filter
      (fun r => decide (rawKey r = (("A"), ("X"), ("TX")))) ≠ [] := by decide
  have hnear : ((("A"), ("X"), ("TX")) : Key).2.2 ∈
      statesNearRoute taxi [(("TX"), ((0 : ℚ), (0 : ℚ)))] [((0 : ℚ), (0 : ℚ))] := by
    norm_num [statesNearRoute, routeSample, sliceStep, taxi]
  have hcoord : lookupCoord ((("A"), ("X"), ("TX")) : Key).2.2
      [(("TX"), ((0 : ℚ), (0 : ℚ)))] = some (0, 0) := by decide
  exact ⟨hgrp, hnear, hcoord,
    c5_dedup_min_price taxi [(("TX"), ((0 : ℚ), (0 : ℚ)))]
      [⟨("A"), ("X"), ("tx"), (""), 4⟩, ⟨("A"), ("X"), (" TX "), (""), 3⟩]
      [((0 : ℚ), (0 : ℚ))] (("A"), ("X"), ("TX")) (0, 0) hgrp hnear hcoord⟩

end FuelOpt
